import Mathlib

/-!
# Verification of the annotation overlay and baking engine

A shallow embedding, in Lean 4, of the core of the review backend:

* `deriveBakedKey` / `deriveAnnotationsKey` — the sidecar key deriver of
  `backend/app/utils/storage_derivation.py`;
* `parseColorToRgb01` and the baking engine `buildBakedPdfBytes` of
  `backend/app/routers/reviews.py`;
* the byte-range streaming proxy `proxyFileForViewer` of the same file;
* the annotation store round trip `savePdfAnns` / `getPdfAnns`.

Modelling conventions:

* Python strings are `List Char`; Python numbers (including the float
  geometry values) are exact rationals `Rat`.  Decimal literals such as
  `0.07` denote the exact rational `7/100`.
* Python `str.strip()` is modelled over the ASCII whitespace characters;
  non-finite float literals (`inf`, `nan`) and underscore digit grouping
  are modelled as parse failures.  Neither approximation is load-bearing:
  every property proved below is insensitive to them.
* Fallible Python code is modelled in `Except`/`Option`; an uncaught
  exception of the translated code is `Except.error`.
* External collaborators (PyMuPDF page objects, `json.loads`, MinIO) are
  modelled as explicit data (`PdfDoc`), function parameters (`parseJson`),
  and key-value maps (`store`).
-/

set_option maxRecDepth 8000

/-! ## Python character and string helpers -/

/-- ASCII whitespace as stripped by Python `str.strip()`. -/
def isPySpace (c : Char) : Bool :=
  c.toNat = 32 || c.toNat = 9 || c.toNat = 10 || c.toNat = 13 ||
    c.toNat = 11 || c.toNat = 12

/-- Python `s.strip()`: drop leading and trailing whitespace. -/
def pyStrip (s : List Char) : List Char :=
  ((s.dropWhile isPySpace).reverse.dropWhile isPySpace).reverse

/-- ASCII decimal digit test. -/
def isDigitCh (c : Char) : Bool := 48 ≤ c.toNat && c.toNat ≤ 57

/-- Numeric value of an ASCII decimal digit. -/
def digitVal (c : Char) : Nat := c.toNat - 48

/-- The ASCII character of a decimal digit. -/
def digitChar (d : Nat) : Char := Char.ofNat (48 + d)

/-- Decimal rendering of a natural number, as Python `str(n)`. -/
def natRepr (n : Nat) : List Char :=
  if n = 0 then ['0'] else ((Nat.digits 10 n).reverse.map digitChar)

/-- Decimal rendering of an integer, as Python `str(i)`. -/
def intRepr (i : Int) : List Char :=
  if i < 0 then '-' :: natRepr i.natAbs else natRepr i.natAbs

/-- Value of a run of decimal digits (most significant first). -/
def decDigitsVal (l : List Char) : Nat :=
  l.foldl (fun a c => 10 * a + digitVal c) 0

/-- Parse a nonempty all-digit string to its value. -/
def parseDecDigits (l : List Char) : Option Nat :=
  if !l.isEmpty && l.all isDigitCh then some (decDigitsVal l) else none

/-- Sign handling shared by Python `int(s)` and `int(s, 16)`: an optional
sign followed by a body parsed by `parseBody`. -/
def pyIntSigned (parseBody : List Char → Option Nat) : List Char → Option Int
  | [] => none
  | c :: r =>
    if c = '-' then (parseBody r).map (fun n => -(n : Int))
    else if c = '+' then (parseBody r).map (fun n => (n : Int))
    else (parseBody (c :: r)).map (fun n => (n : Int))

/-- Python `int(s)` on decimal strings: strip, optional sign, digits. -/
def pyIntDec (s : List Char) : Option Int :=
  pyIntSigned parseDecDigits (pyStrip s)

/-! ## Sidecar key derivation (`storage_derivation.py`) -/

/-- The `filename` part of Python `key.rpartition("/")`: the part after the last
slash, or the whole key if there is none. -/
def fileNameOf (k : List Char) : List Char :=
  (k.reverse.takeWhile (fun c => c != '/')).reverse

/-- The `dir_part` part of Python `key.rpartition("/")`: the part before the last
slash, or empty if there is none. -/
def dirPartOf (k : List Char) : List Char :=
  ((k.reverse.dropWhile (fun c => c != '/')).tail).reverse

/-- Python `base.lower().endswith(".pdf")`. -/
def lowerEndsWithPdf (b : List Char) : Bool :=
  ((b.map Char.toLower).reverse.take 4) == ['f', 'd', 'p', '.']

/-- Python `base.rsplit(".", 1)[0]`: everything before the last dot. -/
def beforeLastDot (b : List Char) : List Char :=
  ((b.reverse.dropWhile (fun c => c != '.')).tail).reverse

/-- The `BAKED_POSTFIX` constant of the source. -/
def bakedToken : List Char := "__baked".data

/-- The `ANNOTATIONS_POSTFIX` constant of the source. -/
def annToken : List Char := "__ann".data

/-- Owner suffix `f"_u{user_id}"`, empty when no owner is supplied. -/
def userSuffix : Option Int → List Char
  | none => []
  | some uid => "_u".data ++ intRepr uid

/-- Function `derive_baked_key` of `storage_derivation.py`. -/
def deriveBakedKey (originalKey : List Char) (userId : Option Int) : List Char :=
  let key := pyStrip originalKey
  if key = [] then
    ("baked".data) ++ bakedToken ++ userSuffix userId ++ (".pdf".data)
  else
    let filename := fileNameOf key
    let base := if lowerEndsWithPdf filename then
        filename.take (filename.length - 4)
      else filename
    let bakedName := base ++ bakedToken ++ userSuffix userId ++ (".pdf".data)
    if dirPartOf key = [] then bakedName else dirPartOf key ++ '/' :: bakedName

/-- Function `derive_annotations_key` of `storage_derivation.py`. -/
def deriveAnnotationsKey (originalKey : List Char) (userId : Option Int) : List Char :=
  let key := pyStrip originalKey
  if key = [] then
    ("annotations".data) ++ annToken ++ userSuffix userId ++ (".json".data)
  else
    let filename := fileNameOf key
    let base := if filename.contains '.' then beforeLastDot filename else filename
    let annName := base ++ annToken ++ userSuffix userId ++ (".json".data)
    if dirPartOf key = [] then annName else dirPartOf key ++ '/' :: annName

/-! ## Lemmas: decimal rendering round-trips through parsing -/

theorem digitChar_toNat {d : Nat} (hd : d < 10) : (digitChar d).toNat = 48 + d := by
  interval_cases d <;> decide

theorem digitChar_isDigit {d : Nat} (hd : d < 10) : isDigitCh (digitChar d) = true := by
  simp [isDigitCh, digitChar_toNat hd]; omega

theorem natRepr_ne_nil (n : Nat) : natRepr n ≠ [] := by
  unfold natRepr
  split
  · simp
  · next h =>
    intro hmap
    rw [List.map_eq_nil_iff, List.reverse_eq_nil_iff] at hmap
    exact h (Nat.digits_eq_nil_iff_eq_zero.mp hmap)

theorem mem_natRepr_digit {n : Nat} {c : Char} (hc : c ∈ natRepr n) :
    48 ≤ c.toNat ∧ c.toNat ≤ 57 := by
  unfold natRepr at hc
  split at hc
  · rw [List.mem_singleton] at hc; subst hc; decide
  · next h =>
    rw [List.mem_map] at hc
    obtain ⟨d, hd, rfl⟩ := hc
    rw [List.mem_reverse] at hd
    have hlt : d < 10 := Nat.digits_lt_base (by norm_num) hd
    rw [digitChar_toNat hlt]; omega

theorem mem_intRepr_char {i : Int} {c : Char} (hc : c ∈ intRepr i) :
    c.toNat = 45 ∨ (48 ≤ c.toNat ∧ c.toNat ≤ 57) := by
  unfold intRepr at hc
  split at hc
  · rcases List.mem_cons.mp hc with h | h
    · subst h; left; decide
    · exact Or.inr (mem_natRepr_digit h)
  · exact Or.inr (mem_natRepr_digit hc)

theorem foldl_digits_eq_ofDigits (l : List Nat) (hl : ∀ d ∈ l, d < 10) :
    l.reverse.foldl (fun a d => 10 * a + digitVal (digitChar d)) 0 =
      Nat.ofDigits 10 l := by
  rw [List.foldl_reverse]
  induction l with
  | nil => simp [Nat.ofDigits]
  | cons d t ih =>
    have hd : d < 10 := hl d (by simp)
    have ht : ∀ x ∈ t, x < 10 := fun x hx => hl x (by simp [hx])
    simp only [List.foldr_cons, ih ht, Nat.ofDigits_cons]
    simp [digitVal, digitChar_toNat hd]
    omega

theorem parseDecDigits_natRepr (n : Nat) : parseDecDigits (natRepr n) = some n := by
  have hall : (natRepr n).all isDigitCh = true := by
    rw [List.all_eq_true]
    intro c hc
    have := mem_natRepr_digit hc
    simp [isDigitCh]; omega
  have hne : (natRepr n).isEmpty = false := by
    rcases h : natRepr n with _ | ⟨c, t⟩
    · exact absurd h (natRepr_ne_nil n)
    · rfl
  unfold parseDecDigits
  rw [hne, hall]
  simp only [Bool.not_false, Bool.true_and, if_pos]
  congr 1
  unfold decDigitsVal natRepr
  split
  · next h => subst h; decide
  · next h =>
    rw [List.foldl_map]
    rw [foldl_digits_eq_ofDigits _ (fun d hd => Nat.digits_lt_base (by norm_num) hd)]
    exact Nat.ofDigits_digits 10 n

theorem natRepr_injective : Function.Injective natRepr := by
  intro a b h
  have ha := parseDecDigits_natRepr a
  have hb := parseDecDigits_natRepr b
  rw [h, hb] at ha
  exact (Option.some.injEq _ _).mp ha.symm

/-! ## Lemmas: `pyStrip` -/

theorem dropWhile_eq_self_of_all {p : Char → Bool} {l : List Char}
    (h : ∀ c ∈ l, p c = false) : l.dropWhile p = l := by
  cases l with
  | nil => rfl
  | cons a t => simp [List.dropWhile_cons, h a (by simp)]

theorem pyStrip_eq_self {s : List Char} (h : ∀ c ∈ s, isPySpace c = false) :
    pyStrip s = s := by
  unfold pyStrip
  rw [dropWhile_eq_self_of_all h,
      dropWhile_eq_self_of_all (fun c hc => h c (List.mem_reverse.mp hc)),
      List.reverse_reverse]

theorem mem_pyStrip {s : List Char} {c : Char} (hc : c ∈ pyStrip s) : c ∈ s := by
  unfold pyStrip at hc
  rw [List.mem_reverse] at hc
  have h1 := (List.dropWhile_sublist _).mem hc
  rw [List.mem_reverse] at h1
  exact (List.dropWhile_sublist _).mem h1

theorem pyStrip_eq_nil_all_space {s : List Char} (h : pyStrip s = []) :
    ∀ c ∈ s, isPySpace c = true := by
  intro c hc
  unfold pyStrip at h
  rw [List.reverse_eq_nil_iff, List.dropWhile_eq_nil_iff] at h
  have hsplit : c ∈ s.takeWhile isPySpace ++ s.dropWhile isPySpace := by
    rw [List.takeWhile_append_dropWhile]; exact hc
  rcases List.mem_append.mp hsplit with h1 | h1
  · exact List.mem_takeWhile_imp h1
  · exact h _ (List.mem_reverse.mpr h1)

theorem dropWhile_head_false {p : Char → Bool} {l : List Char} {a : Char} {t : List Char}
    (h : l.dropWhile p = a :: t) : p a = false := by
  induction l with
  | nil => simp at h
  | cons x xs ih =>
    rw [List.dropWhile_cons] at h
    split at h
    · exact ih h
    · next hx =>
      cases h
      exact Bool.not_eq_true _ ▸ (by simpa using hx)

/-- The strip of `s` sits inside `s` between two all-space stretches. -/
theorem pyStrip_decomp (s : List Char) :
    ∃ pre post, s = pre ++ pyStrip s ++ post ∧
      (∀ c ∈ pre, isPySpace c = true) ∧ (∀ c ∈ post, isPySpace c = true) := by
  refine ⟨s.takeWhile isPySpace,
    ((s.dropWhile isPySpace).reverse.takeWhile isPySpace).reverse, ?_, ?_, ?_⟩
  · unfold pyStrip
    conv_lhs => rw [← List.takeWhile_append_dropWhile isPySpace s]
    rw [List.append_assoc]
    congr 1
    conv_lhs => rw [← List.reverse_reverse (s.dropWhile isPySpace),
      ← List.takeWhile_append_dropWhile isPySpace (s.dropWhile isPySpace).reverse]
    rw [List.reverse_append]
  · exact fun c hc => List.mem_takeWhile_imp hc
  · exact fun c hc => List.mem_takeWhile_imp (List.mem_reverse.mp hc)

/-- A nonempty stripped string starts with a non-space character. -/
theorem pyStrip_head_not_space {s : List Char} {c : Char} {t : List Char}
    (h : pyStrip s = c :: t) : isPySpace c = false := by
  have hpre : (s.dropWhile isPySpace).reverse.dropWhile isPySpace =
      (c :: t).reverse := by
    unfold pyStrip at h
    rw [← h, List.reverse_reverse]
  rcases hd : s.dropWhile isPySpace with _ | ⟨a, r⟩
  · rw [hd] at hpre; simp at hpre
  · have ha : isPySpace a = false := dropWhile_head_false hd
    -- `pyStrip s` is a prefix of `dropWhile isPySpace s`, so `c = a`.
    have hsub : pyStrip s ++ ((s.dropWhile isPySpace).reverse.takeWhile isPySpace).reverse
        = s.dropWhile isPySpace := by
      unfold pyStrip
      conv_rhs => rw [← List.reverse_reverse (s.dropWhile isPySpace),
        ← List.takeWhile_append_dropWhile isPySpace (s.dropWhile isPySpace).reverse]
      rw [List.reverse_append]
    rw [h, hd] at hsub
    have : c = a := by
      have := congrArg (·.head?) hsub
      simpa using this
    rw [this]; exact ha
/-! ## Lemmas: `rpartition`-style splitting -/

theorem takeWhile_eq_self_of_all {p : Char → Bool} {l : List Char}
    (h : ∀ c ∈ l, p c = true) : l.takeWhile p = l := by
  induction l with
  | nil => rfl
  | cons a t ih =>
    rw [List.takeWhile_cons, h a (by simp)]
    simp [ih fun c hc => h c (by simp [hc])]

theorem takeWhile_append_cons {p : Char → Bool} {A : List Char} {a : Char} (B : List Char)
    (hA : ∀ c ∈ A, p c = true) (ha : p a = false) :
    (A ++ a :: B).takeWhile p = A := by
  induction A with
  | nil => simp [List.takeWhile_cons, ha]
  | cons x xs ih =>
    rw [List.cons_append, List.takeWhile_cons, hA x (by simp)]
    simp [ih fun c hc => hA c (by simp [hc])]

theorem dropWhile_append_cons {p : Char → Bool} {A : List Char} {a : Char} (B : List Char)
    (hA : ∀ c ∈ A, p c = true) (ha : p a = false) :
    (A ++ a :: B).dropWhile p = a :: B := by
  induction A with
  | nil => simp [List.dropWhile_cons, ha]
  | cons x xs ih =>
    rw [List.cons_append, List.dropWhile_cons, hA x (by simp)]
    simpa using ih fun c hc => hA c (by simp [hc])

/-- Splitting off the last occurrence of `sep`: the `rpartition` shape used
by both `fileNameOf`/`dirPartOf` (`sep = '/'`) and `beforeLastDot`
(`sep = '.'`). -/
theorem rsplit_decomp {sep : Char} {k : List Char} (h : sep ∈ k) :
    k = ((k.reverse.dropWhile (fun c => c != sep)).tail).reverse ++ sep ::
        (k.reverse.takeWhile (fun c => c != sep)).reverse ∧
    sep ∉ (k.reverse.takeWhile (fun c => c != sep)).reverse := by
  have hrev : sep ∈ k.reverse := List.mem_reverse.mpr h
  have hsplit := List.takeWhile_append_dropWhile (fun c => c != sep) k.reverse
  rcases hd : k.reverse.dropWhile (fun c => c != sep) with _ | ⟨d, D⟩
  · exfalso
    rw [hd, List.append_nil] at hsplit
    have := List.mem_takeWhile_imp (hsplit ▸ hrev)
    simp at this
  · have hdsep : d = sep := by
      have := dropWhile_head_false hd
      simpa using this
    subst hdsep
    constructor
    · conv_lhs => rw [← List.reverse_reverse k, ← hsplit]
      rw [hd, List.reverse_append, List.reverse_cons, List.append_assoc]
      simp
    · intro hmem
      have := List.mem_takeWhile_imp (List.mem_reverse.mp hmem)
      simp at this

theorem rsplit_no_sep {sep : Char} {k : List Char} (h : sep ∉ k) :
    (k.reverse.takeWhile (fun c => c != sep)).reverse = k ∧
    (k.reverse.dropWhile (fun c => c != sep)).tail.reverse = [] := by
  have hall : ∀ c ∈ k.reverse, (c != sep) = true := by
    intro c hc
    have : c ≠ sep := fun he => h (he ▸ List.mem_reverse.mp hc)
    simpa using this
  constructor
  · rw [takeWhile_eq_self_of_all hall, List.reverse_reverse]
  · rw [List.dropWhile_eq_nil_iff.mpr hall]; rfl

theorem fileNameOf_append {dir fn : List Char} (h : '/' ∉ fn) :
    fileNameOf (dir ++ '/' :: fn) = fn := by
  unfold fileNameOf
  rw [List.reverse_append, List.reverse_cons, List.append_assoc,
    List.singleton_append]
  rw [takeWhile_append_cons _
      (fun c hc => by
        have hm : c ∈ fn := List.mem_reverse.mp hc
        simp only [bne_iff_ne, ne_eq]
        intro he
        exact h (he ▸ hm))
      (by simp)]
  exact List.reverse_reverse fn

theorem dirPartOf_append {dir fn : List Char} (h : '/' ∉ fn) :
    dirPartOf (dir ++ '/' :: fn) = dir := by
  unfold dirPartOf
  rw [List.reverse_append, List.reverse_cons, List.append_assoc,
    List.singleton_append]
  rw [dropWhile_append_cons _
      (fun c hc => by
        have hm : c ∈ fn := List.mem_reverse.mp hc
        simp only [bne_iff_ne, ne_eq]
        intro he
        exact h (he ▸ hm))
      (by simp)]
  simp

/-! ## Lemmas: decimal renderings contain only digits and `'-'` -/

theorem intRepr_injective : Function.Injective intRepr := by
  intro a b h
  unfold intRepr at h
  by_cases ha : a < 0 <;> by_cases hb : b < 0 <;> simp [ha, hb] at h
  · have := natRepr_injective h; omega
  · exfalso
    have hm : '-' ∈ natRepr b.natAbs := by rw [← h]; simp
    have := mem_natRepr_digit hm
    simp at this
  · exfalso
    have hm : '-' ∈ natRepr a.natAbs := by rw [h]; simp
    have := mem_natRepr_digit hm
    simp at this
  · have := natRepr_injective h; omega

theorem userSuffix_injective : Function.Injective userSuffix := by
  intro u1 u2 h
  match u1, u2 with
  | none, none => rfl
  | none, some b => exact absurd h (by simp [userSuffix])
  | some a, none => exact absurd h (by simp [userSuffix])
  | some a, some b =>
    have h2 : intRepr a = intRepr b := by
      have : '_' :: 'u' :: intRepr a = '_' :: 'u' :: intRepr b := h
      injection this with _ h3
      injection h3 with _ h4
    rw [intRepr_injective h2]

/-! ## Lemmas: both derived keys factor as `stem ++ ownerSuffix ++ ext` -/

/-- Everything of `deriveBakedKey` that does not depend on the owner. -/
def bakedStem (k : List Char) : List Char :=
  let key := pyStrip k
  if key = [] then ("baked".data) ++ bakedToken
  else
    let filename := fileNameOf key
    let base := if lowerEndsWithPdf filename then
        filename.take (filename.length - 4)
      else filename
    if dirPartOf key = [] then base ++ bakedToken
    else dirPartOf key ++ '/' :: (base ++ bakedToken)

/-- Everything of `deriveAnnotationsKey` that does not depend on the owner. -/
def annStem (k : List Char) : List Char :=
  let key := pyStrip k
  if key = [] then ("annotations".data) ++ annToken
  else
    let filename := fileNameOf key
    let base := if filename.contains '.' then beforeLastDot filename else filename
    if dirPartOf key = [] then base ++ annToken
    else dirPartOf key ++ '/' :: (base ++ annToken)

theorem deriveBakedKey_eq_stem (k : List Char) (u : Option Int) :
    deriveBakedKey k u = bakedStem k ++ userSuffix u ++ (".pdf".data) := by
  by_cases h : pyStrip k = []
  · simp [deriveBakedKey, bakedStem, h, List.append_assoc]
  · by_cases h2 : dirPartOf (pyStrip k) = [] <;>
      simp [deriveBakedKey, bakedStem, h, h2, List.append_assoc]

theorem deriveAnnotationsKey_eq_stem (k : List Char) (u : Option Int) :
    deriveAnnotationsKey k u = annStem k ++ userSuffix u ++ (".json".data) := by
  by_cases h : pyStrip k = []
  · simp [deriveAnnotationsKey, annStem, h, List.append_assoc]
  · by_cases h2 : dirPartOf (pyStrip k) = [] <;>
      simp [deriveAnnotationsKey, annStem, h, h2, List.append_assoc]

/-! ## Claim C2 -/

/-- Claim C2: `derive_baked_key` and `derive_annotations_key` are deterministic
pure functions of `(source_key, user_id)`, and for a fixed source key two
distinct owners (including the case where one owner is absent) always
derive distinct keys, for both derivation functions. -/
theorem derive_keys_deterministic_and_owner_injective
    (key : List Char) (u1 u2 : Option Int) :
    deriveBakedKey key u1 = deriveBakedKey key u1 ∧
    deriveAnnotationsKey key u1 = deriveAnnotationsKey key u1 ∧
    (u1 ≠ u2 →
      deriveBakedKey key u1 ≠ deriveBakedKey key u2 ∧
      deriveAnnotationsKey key u1 ≠ deriveAnnotationsKey key u2) := by
  refine ⟨rfl, rfl, fun hne => ⟨?_, ?_⟩⟩
  · rw [deriveBakedKey_eq_stem, deriveBakedKey_eq_stem]
    intro h
    exact hne (userSuffix_injective
      (List.append_cancel_left (List.append_cancel_right h)))
  · rw [deriveAnnotationsKey_eq_stem, deriveAnnotationsKey_eq_stem]
    intro h
    exact hne (userSuffix_injective
      (List.append_cancel_left (List.append_cancel_right h)))

/-- Witness for C2 at a concrete key and two concrete owners. -/
theorem derive_keys_deterministic_and_owner_injective_witness :
    deriveBakedKey ("foo/bar.pdf".data) (some 1) ≠
      deriveBakedKey ("foo/bar.pdf".data) (some 2) ∧
    deriveAnnotationsKey ("foo/bar.pdf".data) (some 1) ≠
      deriveAnnotationsKey ("foo/bar.pdf".data) (some 2) :=
  (derive_keys_deterministic_and_owner_injective ("foo/bar.pdf".data)
    (some 1) (some 2)).2.2 (by decide)

/-! ## Claim C7 -/

/-- Claim C7 counterexample: on a basename with a non-`.pdf` extension,
`derive_baked_key` keeps the extension instead of stripping it, so the
claimed "strip the last extension (any extension)" is false for the baked
key deriver. -/
theorem derive_baked_keeps_other_extension :
    deriveBakedKey ("docs/name.txt".data) none = "docs/name.txt__baked.pdf".data ∧
    deriveBakedKey ("docs/name.txt".data) none ≠ "docs/name__baked.pdf".data := by
  constructor <;> decide

/-- Claim C7 amended: for a source key `dir ++ "/" ++ fn` (no slash in `fn`),
`derive_annotations_key` strips any last extension of the basename while
`derive_baked_key` strips only a case-insensitive `.pdf` extension; each
then appends its fixed token, the owner suffix and its fixed extension,
re-joined with the directory prefix unchanged; a bare basename derives the
same name without a directory prefix. -/
theorem derive_keys_structure (dir fn : List Char) (u : Option Int)
    (hfn : '/' ∉ fn) :
    (dir ≠ [] → pyStrip (dir ++ '/' :: fn) = dir ++ '/' :: fn →
      deriveBakedKey (dir ++ '/' :: fn) u =
        dir ++ '/' :: ((if lowerEndsWithPdf fn then fn.take (fn.length - 4) else fn)
          ++ bakedToken ++ userSuffix u ++ (".pdf".data)) ∧
      deriveAnnotationsKey (dir ++ '/' :: fn) u =
        dir ++ '/' :: ((if fn.contains '.' then beforeLastDot fn else fn)
          ++ annToken ++ userSuffix u ++ (".json".data))) ∧
    (fn ≠ [] → pyStrip fn = fn →
      deriveBakedKey fn u =
        (if lowerEndsWithPdf fn then fn.take (fn.length - 4) else fn)
          ++ bakedToken ++ userSuffix u ++ (".pdf".data) ∧
      deriveAnnotationsKey fn u =
        (if fn.contains '.' then beforeLastDot fn else fn)
          ++ annToken ++ userSuffix u ++ (".json".data)) := by
  constructor
  · intro hdir hstrip
    have hkey : dir ++ '/' :: fn ≠ [] := by simp
    have hfile := @fileNameOf_append dir fn hfn
    have hdirp := @dirPartOf_append dir fn hfn
    constructor
    · simp only [deriveBakedKey, hstrip, if_neg hkey, hfile, hdirp, if_neg hdir,
        List.append_assoc]
    · simp only [deriveAnnotationsKey, hstrip, if_neg hkey, hfile, hdirp, if_neg hdir,
        List.append_assoc]
  · intro hfne hstrip
    have hfile : fileNameOf fn = fn := (rsplit_no_sep hfn).1
    have hdirp : dirPartOf fn = [] := (rsplit_no_sep hfn).2
    constructor
    · simp [deriveBakedKey, hstrip, if_neg hfne, hfile, hdirp, List.append_assoc]
    · simp [deriveAnnotationsKey, hstrip, if_neg hfne, hfile, hdirp, List.append_assoc]

/-- Witness for C7's amended statement at a concrete key and owner. -/
theorem derive_keys_structure_witness :
    (deriveBakedKey ("docs".data ++ '/' :: "name.txt".data) (some 7) =
      "docs".data ++ '/' ::
        ((if lowerEndsWithPdf ("name.txt".data) then
            ("name.txt".data).take (("name.txt".data).length - 4)
          else "name.txt".data)
          ++ bakedToken ++ userSuffix (some 7) ++ (".pdf".data))) ∧
    (deriveAnnotationsKey ("docs".data ++ '/' :: "name.txt".data) (some 7) =
      "docs".data ++ '/' ::
        ((if ("name.txt".data).contains '.' then beforeLastDot ("name.txt".data)
          else "name.txt".data)
          ++ annToken ++ userSuffix (some 7) ++ (".json".data))) :=
  (derive_keys_structure ("docs".data) ("name.txt".data) (some 7) (by decide)).1
    (by decide) (by decide)

/-! ## Claim C9: derived keys never collide with the source key -/

theorem head?_append_left {A B : List Char} (h : A ≠ []) :
    (A ++ B).head? = A.head? := by
  cases A with
  | nil => exact absurd rfl h
  | cons a t => rfl

theorem mem_userSuffix_toNat {u : Option Int} {c : Char} (h : c ∈ userSuffix u) :
    c.toNat = 95 ∨ c.toNat = 117 ∨ c.toNat = 45 ∨ (48 ≤ c.toNat ∧ c.toNat ≤ 57) := by
  match u with
  | none => simp [userSuffix] at h
  | some uid =>
    rcases List.mem_append.mp h with h1 | h1
    · rcases h1 with _ | ⟨_, h2⟩
      · left; rfl
      · rcases h2 with _ | ⟨_, h3⟩
        · right; left; rfl
        · cases h3
    · rcases mem_intRepr_char h1 with h2 | h2
      · right; right; left; exact h2
      · right; right; right; exact h2

theorem not_slash_userSuffix (u : Option Int) : '/' ∉ userSuffix u := by
  intro h
  rcases mem_userSuffix_toNat h with h1 | h1 | h1 | h1 <;> simp_all

/-- If a string starts and ends with non-space characters, `pyStrip`
leaves it unchanged. -/
theorem pyStrip_of_ends {D : List Char} {c c' : Char} {t t' : List Char}
    (hD : D = c :: t) (hDr : D.reverse = c' :: t')
    (h1 : isPySpace c = false) (h2 : isPySpace c' = false) :
    pyStrip D = D := by
  unfold pyStrip
  rw [hD, List.dropWhile_cons, h1]
  simp only [Bool.false_eq_true, if_false]
  rw [← hD, hDr, List.dropWhile_cons, h2]
  simp only [Bool.false_eq_true, if_false]
  rw [← hDr, List.reverse_reverse]

theorem reverse_append_pdf (X : List Char) :
    (X ++ (".pdf".data)).reverse = 'f' :: ('d' :: 'p' :: '.' :: X.reverse) := by
  rw [List.reverse_append]; rfl

theorem reverse_append_json (X : List Char) :
    (X ++ (".json".data)).reverse = 'n' :: ('o' :: 's' :: 'j' :: '.' :: X.reverse) := by
  rw [List.reverse_append]; rfl

/-- The structural value of `deriveBakedKey` for a nonempty stripped key. -/
theorem deriveBakedKey_form (key : List Char) (u : Option Int)
    (h : pyStrip key ≠ []) :
    deriveBakedKey key u =
      (if dirPartOf (pyStrip key) = [] then ([] : List Char)
        else dirPartOf (pyStrip key) ++ ['/']) ++
      ((if lowerEndsWithPdf (fileNameOf (pyStrip key)) then
          (fileNameOf (pyStrip key)).take ((fileNameOf (pyStrip key)).length - 4)
        else fileNameOf (pyStrip key)) ++
        bakedToken ++ userSuffix u ++ (".pdf".data)) := by
  by_cases h2 : dirPartOf (pyStrip key) = [] <;>
    simp [deriveBakedKey, h, h2, List.append_assoc]

/-- The structural value of `deriveAnnotationsKey` for a nonempty stripped key. -/
theorem deriveAnnotationsKey_form (key : List Char) (u : Option Int)
    (h : pyStrip key ≠ []) :
    deriveAnnotationsKey key u =
      (if dirPartOf (pyStrip key) = [] then ([] : List Char)
        else dirPartOf (pyStrip key) ++ ['/']) ++
      ((if (fileNameOf (pyStrip key)).contains '.' then
          beforeLastDot (fileNameOf (pyStrip key))
        else fileNameOf (pyStrip key)) ++
        annToken ++ userSuffix u ++ (".json".data)) := by
  by_cases h2 : dirPartOf (pyStrip key) = [] <;>
    simp [deriveAnnotationsKey, h, h2, List.append_assoc]

/-- The baked name `base ++ "__baked" ++ suffix ++ ".pdf"` is never the
basename it came from (it is strictly longer). -/
theorem baked_name_ne (F : List Char) (u : Option Int) :
    (if lowerEndsWithPdf F then F.take (F.length - 4) else F) ++
      bakedToken ++ userSuffix u ++ (".pdf".data) ≠ F := by
  intro h
  have hlen := congrArg List.length h
  have htok : bakedToken.length = 7 := by decide
  have hext : (".pdf".data).length = 4 := by decide
  by_cases hpdf : lowerEndsWithPdf F = true <;>
    simp [hpdf, List.length_append, List.length_take, htok, hext] at hlen <;>
    omega

/-- The annotations name `base ++ "__ann" ++ suffix ++ ".json"` is never
the basename it came from. -/
theorem ann_name_ne (F : List Char) (u : Option Int) :
    (if F.contains '.' then beforeLastDot F else F) ++
      annToken ++ userSuffix u ++ (".json".data) ≠ F := by
  intro h
  by_cases hdot : F.contains '.' = true
  · have hmem : '.' ∈ F := List.elem_iff.mp hdot
    obtain ⟨hdec, _⟩ := rsplit_decomp hmem
    rw [if_pos hdot] at h
    conv_rhs at h => rw [hdec]
    rw [List.append_assoc, List.append_assoc] at h
    have h2 := List.append_cancel_left h
    rw [← List.append_assoc] at h2
    -- h2 : "__ann" ++ suffix ++ ".json" = '.' :: afterLastDot
    have hhead := congrArg List.head? h2
    simp [annToken] at hhead
  · rw [if_neg hdot] at h
    have hlen := congrArg List.length h
    have htok : annToken.length = 5 := by decide
    have hext : (".json".data).length = 5 := by decide
    simp [List.length_append, htok, hext] at hlen

/-- Claim C9: for every source key and every owner (present or absent) the
derived baked key and the derived annotations key both differ from the
source key itself, so writing a sidecar can never overwrite the original
object. -/
theorem derived_keys_never_equal_source (key : List Char) (u : Option Int) :
    deriveBakedKey key u ≠ key ∧ deriveAnnotationsKey key u ≠ key := by
  constructor
  · intro hD
    have hPS : pyStrip (deriveBakedKey key u) = pyStrip key := by rw [hD]
    by_cases hKnil : pyStrip key = []
    · -- empty stripped key: the derived key is "baked__baked...pdf",
      -- whose strip is itself and nonempty
      have hDef : deriveBakedKey key u =
          ("baked".data) ++ bakedToken ++ userSuffix u ++ (".pdf".data) := by
        simp [deriveBakedKey, hKnil]
      have hcons : deriveBakedKey key u =
          'b' :: (("aked".data) ++ bakedToken ++ userSuffix u ++ (".pdf".data)) :=
        hDef
      have hrev : (deriveBakedKey key u).reverse =
          'f' :: ('d' :: 'p' :: '.' ::
            ((("baked".data) ++ bakedToken ++ userSuffix u)).reverse) := by
        rw [hDef]
        exact reverse_append_pdf _
      have hself := pyStrip_of_ends hcons hrev (by decide) (by decide)
      rw [hPS, hKnil] at hself
      rw [hcons] at hself
      exact absurd hself.symm (by simp)
    · have hform := deriveBakedKey_form key u hKnil
      rcases hKc : pyStrip key with _ | ⟨c0, t0⟩
      · exact hKnil hKc
      have hc0 : isPySpace c0 = false := pyStrip_head_not_space hKc
      have hXf : deriveBakedKey key u =
          ((if dirPartOf (pyStrip key) = [] then ([] : List Char)
            else dirPartOf (pyStrip key) ++ ['/']) ++
          ((if lowerEndsWithPdf (fileNameOf (pyStrip key)) then
              (fileNameOf (pyStrip key)).take ((fileNameOf (pyStrip key)).length - 4)
            else fileNameOf (pyStrip key)) ++
            bakedToken ++ userSuffix u)) ++ (".pdf".data) := by
        rw [hform, ← List.append_assoc]
      have hrev : ∃ t', (deriveBakedKey key u).reverse = 'f' :: t' :=
        ⟨_, by rw [hXf]; exact reverse_append_pdf _⟩
      obtain ⟨t', hrev⟩ := hrev
      by_cases hsl : '/' ∈ pyStrip key
      · obtain ⟨hdec, hnsfn⟩ : pyStrip key =
            dirPartOf (pyStrip key) ++ '/' :: fileNameOf (pyStrip key) ∧
            '/' ∉ fileNameOf (pyStrip key) := rsplit_decomp hsl
        by_cases hdp : dirPartOf (pyStrip key) = []
        · -- key has a slash but the derived key has none
          have hslD : '/' ∈ deriveBakedKey key u :=
            @mem_pyStrip (deriveBakedKey key u) '/' (by rw [hPS]; exact hsl)
          rw [hform, if_pos hdp, List.nil_append] at hslD
          rcases List.mem_append.mp hslD with h1 | h1
          · rcases List.mem_append.mp h1 with h2 | h2
            · rcases List.mem_append.mp h2 with h3 | h3
              · revert h3
                split
                · intro h3
                  exact hnsfn ((List.take_prefix _ _).sublist.mem h3)
                · intro h3
                  exact hnsfn h3
              · simp [bakedToken] at h3
            · exact not_slash_userSuffix u h2
          · simp at h1
        · -- directory case: the derived key equals the source key only if
          -- basename = bakedname, which is impossible
          have hdpc : ∃ dpt, dirPartOf (pyStrip key) = c0 :: dpt := by
            rcases hh : dirPartOf (pyStrip key) with _ | ⟨d, dpt⟩
            · exact absurd hh hdp
            · refine ⟨dpt, ?_⟩
              rw [hh] at hdec
              rw [hKc] at hdec
              injection hdec with h1 _
              rw [h1]
          obtain ⟨dpt, hdpc⟩ := hdpc
          have hcons : deriveBakedKey key u = c0 ::
              ((dpt ++ ['/']) ++
                ((if lowerEndsWithPdf (fileNameOf (pyStrip key)) then
                    (fileNameOf (pyStrip key)).take
                      ((fileNameOf (pyStrip key)).length - 4)
                  else fileNameOf (pyStrip key)) ++
                  bakedToken ++ userSuffix u ++ (".pdf".data))) := by
            rw [hform, if_neg hdp, hdpc]
            simp [List.append_assoc]
          have hself := pyStrip_of_ends hcons hrev hc0 (by decide)
          rw [hPS] at hself
          -- so source key (stripped) equals the derived key
          have hKD : dirPartOf (pyStrip key) ++ '/' :: fileNameOf (pyStrip key) =
              (dirPartOf (pyStrip key) ++ ['/']) ++
              ((if lowerEndsWithPdf (fileNameOf (pyStrip key)) then
                  (fileNameOf (pyStrip key)).take
                    ((fileNameOf (pyStrip key)).length - 4)
                else fileNameOf (pyStrip key)) ++
                bakedToken ++ userSuffix u ++ (".pdf".data)) := by
            conv_lhs => rw [← hdec, hself, hform, if_neg hdp]
          rw [List.append_assoc, List.singleton_append] at hKD
          have := List.append_cancel_left hKD
          injection this with _ h2
          exact baked_name_ne _ u h2.symm
      · -- no slash: basename is the whole stripped key
        obtain ⟨hfn, hdp⟩ := rsplit_no_sep hsl
        have hfn' : fileNameOf (pyStrip key) = pyStrip key := hfn
        have hdp' : dirPartOf (pyStrip key) = [] := hdp
        have hDval : deriveBakedKey key u =
            (if lowerEndsWithPdf (fileNameOf (pyStrip key)) then
              (fileNameOf (pyStrip key)).take ((fileNameOf (pyStrip key)).length - 4)
            else fileNameOf (pyStrip key)) ++
            bakedToken ++ userSuffix u ++ (".pdf".data) := by
          rw [hform, if_pos hdp', List.nil_append]
        -- the derived key starts with a non-space character
        have hhead : ∃ (c : Char) (t : List Char),
            deriveBakedKey key u = c :: t ∧ isPySpace c = false := by
          rcases hbc : (if lowerEndsWithPdf (fileNameOf (pyStrip key)) then
              (fileNameOf (pyStrip key)).take ((fileNameOf (pyStrip key)).length - 4)
            else fileNameOf (pyStrip key)) with _ | ⟨b, bt⟩
          · refine ⟨'_', ("_baked".data) ++ userSuffix u ++ (".pdf".data), ?_, by decide⟩
            rw [hDval, hbc, List.nil_append]
            rfl
          · have hbpre : b = c0 := by
              have hpre : ∃ r, pyStrip key =
                  (if lowerEndsWithPdf (fileNameOf (pyStrip key)) then
                    (fileNameOf (pyStrip key)).take
                      ((fileNameOf (pyStrip key)).length - 4)
                  else fileNameOf (pyStrip key)) ++ r := by
                split
                · obtain ⟨r, hr⟩ := (List.take_prefix
                    ((fileNameOf (pyStrip key)).length - 4) (fileNameOf (pyStrip key)))
                  refine ⟨r, ?_⟩
                  rw [hr, hfn']
                · exact ⟨[], by rw [hfn', List.append_nil]⟩
              obtain ⟨r, hr⟩ := hpre
              rw [hbc] at hr
              rw [hKc] at hr
              simp only [List.cons_append] at hr
              injection hr with h1 _
              exact h1.symm
            refine ⟨b, bt ++ bakedToken ++ userSuffix u ++ (".pdf".data), ?_,
              by rw [hbpre]; exact hc0⟩
            rw [hDval, hbc]
            simp [List.append_assoc]
        obtain ⟨c, t, hcons, hcns⟩ := hhead
        have hself := pyStrip_of_ends hcons hrev hcns (by decide)
        rw [hPS] at hself
        have : deriveBakedKey key u = fileNameOf (pyStrip key) := by
          rw [hfn']
          exact hself.symm
        rw [hDval] at this
        exact baked_name_ne _ u this
  · intro hD
    have hPS : pyStrip (deriveAnnotationsKey key u) = pyStrip key := by rw [hD]
    by_cases hKnil : pyStrip key = []
    · have hDef : deriveAnnotationsKey key u =
          ("annotations".data) ++ annToken ++ userSuffix u ++ (".json".data) := by
        simp [deriveAnnotationsKey, hKnil]
      have hcons : deriveAnnotationsKey key u =
          'a' :: (("nnotations".data) ++ annToken ++ userSuffix u ++ (".json".data)) :=
        hDef
      have hrev : (deriveAnnotationsKey key u).reverse =
          'n' :: ('o' :: 's' :: 'j' :: '.' ::
            ((("annotations".data) ++ annToken ++ userSuffix u)).reverse) := by
        rw [hDef]
        exact reverse_append_json _
      have hself := pyStrip_of_ends hcons hrev (by decide) (by decide)
      rw [hPS, hKnil] at hself
      rw [hcons] at hself
      exact absurd hself.symm (by simp)
    · have hform := deriveAnnotationsKey_form key u hKnil
      rcases hKc : pyStrip key with _ | ⟨c0, t0⟩
      · exact hKnil hKc
      have hc0 : isPySpace c0 = false := pyStrip_head_not_space hKc
      have hXf : deriveAnnotationsKey key u =
          ((if dirPartOf (pyStrip key) = [] then ([] : List Char)
            else dirPartOf (pyStrip key) ++ ['/']) ++
          ((if (fileNameOf (pyStrip key)).contains '.' then
              beforeLastDot (fileNameOf (pyStrip key))
            else fileNameOf (pyStrip key)) ++
            annToken ++ userSuffix u)) ++ (".json".data) := by
        rw [hform, ← List.append_assoc]
      have hrev : ∃ t', (deriveAnnotationsKey key u).reverse = 'n' :: t' :=
        ⟨_, by rw [hXf]; exact reverse_append_json _⟩
      obtain ⟨t', hrev⟩ := hrev
      by_cases hsl : '/' ∈ pyStrip key
      · obtain ⟨hdec, hnsfn⟩ : pyStrip key =
            dirPartOf (pyStrip key) ++ '/' :: fileNameOf (pyStrip key) ∧
            '/' ∉ fileNameOf (pyStrip key) := rsplit_decomp hsl
        by_cases hdp : dirPartOf (pyStrip key) = []
        · have hslD : '/' ∈ deriveAnnotationsKey key u :=
            @mem_pyStrip (deriveAnnotationsKey key u) '/' (by rw [hPS]; exact hsl)
          rw [hform, if_pos hdp, List.nil_append] at hslD
          rcases List.mem_append.mp hslD with h1 | h1
          · rcases List.mem_append.mp h1 with h2 | h2
            · rcases List.mem_append.mp h2 with h3 | h3
              · revert h3
                split
                · intro h3
                  -- beforeLastDot of the basename sits inside the basename
                  next hdot =>
                    have hmem : '.' ∈ fileNameOf (pyStrip key) := List.elem_iff.mp hdot
                    obtain ⟨hdec2, _⟩ := rsplit_decomp hmem
                    exact hnsfn (hdec2 ▸ List.mem_append.mpr (Or.inl h3))
                · intro h3
                  exact hnsfn h3
              · simp [annToken] at h3
            · exact not_slash_userSuffix u h2
          · simp at h1
        · have hdpc : ∃ dpt, dirPartOf (pyStrip key) = c0 :: dpt := by
            rcases hh : dirPartOf (pyStrip key) with _ | ⟨d, dpt⟩
            · exact absurd hh hdp
            · refine ⟨dpt, ?_⟩
              rw [hh] at hdec
              rw [hKc] at hdec
              injection hdec with h1 _
              rw [h1]
          obtain ⟨dpt, hdpc⟩ := hdpc
          have hcons : deriveAnnotationsKey key u = c0 ::
              ((dpt ++ ['/']) ++
                ((if (fileNameOf (pyStrip key)).contains '.' then
                    beforeLastDot (fileNameOf (pyStrip key))
                  else fileNameOf (pyStrip key)) ++
                  annToken ++ userSuffix u ++ (".json".data))) := by
            rw [hform, if_neg hdp, hdpc]
            simp [List.append_assoc]
          have hself := pyStrip_of_ends hcons hrev hc0 (by decide)
          rw [hPS] at hself
          have hKD : dirPartOf (pyStrip key) ++ '/' :: fileNameOf (pyStrip key) =
              (dirPartOf (pyStrip key) ++ ['/']) ++
              ((if (fileNameOf (pyStrip key)).contains '.' then
                  beforeLastDot (fileNameOf (pyStrip key))
                else fileNameOf (pyStrip key)) ++
                annToken ++ userSuffix u ++ (".json".data)) := by
            conv_lhs => rw [← hdec, hself, hform, if_neg hdp]
          rw [List.append_assoc, List.singleton_append] at hKD
          have := List.append_cancel_left hKD
          injection this with _ h2
          exact ann_name_ne _ u h2.symm
      · obtain ⟨hfn, hdp⟩ := rsplit_no_sep hsl
        have hfn' : fileNameOf (pyStrip key) = pyStrip key := hfn
        have hdp' : dirPartOf (pyStrip key) = [] := hdp
        have hDval : deriveAnnotationsKey key u =
            (if (fileNameOf (pyStrip key)).contains '.' then
              beforeLastDot (fileNameOf (pyStrip key))
            else fileNameOf (pyStrip key)) ++
            annToken ++ userSuffix u ++ (".json".data) := by
          rw [hform, if_pos hdp', List.nil_append]
        have hhead : ∃ (c : Char) (t : List Char),
            deriveAnnotationsKey key u = c :: t ∧ isPySpace c = false := by
          rcases hbc : (if (fileNameOf (pyStrip key)).contains '.' then
              beforeLastDot (fileNameOf (pyStrip key))
            else fileNameOf (pyStrip key)) with _ | ⟨b, bt⟩
          · refine ⟨'_', ("_ann".data) ++ userSuffix u ++ (".json".data), ?_, by decide⟩
            rw [hDval, hbc, List.nil_append]
            rfl
          · have hbpre : b = c0 := by
              have hpre : ∃ r, pyStrip key =
                  (if (fileNameOf (pyStrip key)).contains '.' then
                    beforeLastDot (fileNameOf (pyStrip key))
                  else fileNameOf (pyStrip key)) ++ r := by
                split
                · next hdot =>
                  have hmem : '.' ∈ fileNameOf (pyStrip key) := List.elem_iff.mp hdot
                  obtain ⟨hdec2, _⟩ := rsplit_decomp hmem
                  refine ⟨'.' :: ((fileNameOf (pyStrip key)).reverse.takeWhile
                      (fun c => c != '.')).reverse, ?_⟩
                  conv_lhs => rw [← hfn']
                  exact hdec2
                · exact ⟨[], by rw [hfn', List.append_nil]⟩
              obtain ⟨r, hr⟩ := hpre
              rw [hbc] at hr
              rw [hKc] at hr
              simp only [List.cons_append] at hr
              injection hr with h1 _
              exact h1.symm
            refine ⟨b, bt ++ annToken ++ userSuffix u ++ (".json".data), ?_,
              by rw [hbpre]; exact hc0⟩
            rw [hDval, hbc]
            simp [List.append_assoc]
        obtain ⟨c, t, hcons, hcns⟩ := hhead
        have hself := pyStrip_of_ends hcons hrev hcns (by decide)
        rw [hPS] at hself
        have : deriveAnnotationsKey key u = fileNameOf (pyStrip key) := by
          rw [hfn']
          exact hself.symm
        rw [hDval] at this
        exact ann_name_ne _ u this

/-! ## Python numeric string parsing (`int(s, 16)`, `float(s)`) -/

/-- ASCII hexadecimal digit test. -/
def isHexDigitCh (c : Char) : Bool :=
  (48 ≤ c.toNat && c.toNat ≤ 57) || (97 ≤ c.toNat && c.toNat ≤ 102) ||
    (65 ≤ c.toNat && c.toNat ≤ 70)

/-- Numeric value of an ASCII hexadecimal digit. -/
def hexVal (c : Char) : Nat :=
  if 48 ≤ c.toNat && c.toNat ≤ 57 then c.toNat - 48
  else if 97 ≤ c.toNat then c.toNat - 87
  else c.toNat - 55

/-- Value of a run of hexadecimal digits (most significant first). -/
def hexDigitsVal (l : List Char) : Nat :=
  l.foldl (fun a c => 16 * a + hexVal c) 0

/-- Parse a nonempty all-hex-digit string to its value. -/
def parseHexDigits (l : List Char) : Option Nat :=
  if !l.isEmpty && l.all isHexDigitCh then some (hexDigitsVal l) else none

/-- Hex digits with an optional `0x`/`0X` prefix. -/
def parseHexBody (l : List Char) : Option Nat :=
  match l with
  | '0' :: x :: rest =>
    if x = 'x' ∨ x = 'X' then parseHexDigits rest
    else parseHexDigits ('0' :: x :: rest)
  | _ => parseHexDigits l

/-- Python `int(s, 16)`: strip, optional sign, optional prefix, hex digits. -/
def pyIntHex (s : List Char) : Option Int :=
  pyIntSigned parseHexBody (pyStrip s)

/-- Exponent of a Python float literal: optional sign then digits. -/
def parseExpPart (l : List Char) : Option Int :=
  match l with
  | [] => none
  | c :: r =>
    if c = '+' then (parseDecDigits r).map (fun n => (n : Int))
    else if c = '-' then (parseDecDigits r).map (fun n => -(n : Int))
    else (parseDecDigits (c :: r)).map (fun n => (n : Int))

/-- Unsigned Python float literal: `digits [. digits] [e exp]`.  Non-finite
literals (`inf`, `nan`) are not representable in `Rat` and are modelled as
parse failures; no property below depends on them. -/
def parseUnsignedFloat (l : List Char) : Option Rat :=
  let ip := l.takeWhile isDigitCh
  let r1 := l.dropWhile isDigitCh
  match r1 with
  | [] => if ip.isEmpty then none else some (decDigitsVal ip : Rat)
  | '.' :: r2 =>
    let fp := r2.takeWhile isDigitCh
    let r3 := r2.dropWhile isDigitCh
    if ip.isEmpty && fp.isEmpty then none
    else
      let base : Rat :=
        (decDigitsVal ip : Rat) + (decDigitsVal fp : Rat) / (10 : Rat) ^ fp.length
      match r3 with
      | [] => some base
      | e :: r4 =>
        if e = 'e' ∨ e = 'E' then
          (parseExpPart r4).map (fun ex => base * (10 : Rat) ^ ex)
        else none
  | e :: r2 =>
    if e = 'e' ∨ e = 'E' then
      if ip.isEmpty then none
      else (parseExpPart r2).map (fun ex => (decDigitsVal ip : Rat) * (10 : Rat) ^ ex)
    else none

/-- Python `float(s)` on decimal literals. -/
def pyFloatOfStr (s : List Char) : Option Rat :=
  match pyStrip s with
  | [] => none
  | c :: r =>
    if c = '-' then (parseUnsignedFloat r).map Neg.neg
    else if c = '+' then parseUnsignedFloat r
    else parseUnsignedFloat (c :: r)

/-! ## Color parsing (`_parse_color_to_rgb01`) and clamping (`_clamp01`) -/

/-- The clamp `max(0.0, min(1.0, x))` used throughout the bake code. -/
def clamp01q (v : Rat) : Rat := max 0 (min 1 v)

/-- Python `inner.split(",")`. -/
def splitOnComma : List Char → List (List Char)
  | [] => [[]]
  | c :: t =>
    if c = ',' then [] :: splitOnComma t
    else
      match splitOnComma t with
      | h :: rest => (c :: h) :: rest
      | [] => [[c]]

/-- The slice `s[s.find("(") + 1 : s.rfind(")")]` (Python slice semantics,
including the `-1` end index when `")"` is absent). -/
def colorInner (s : List Char) : List Char :=
  let start := match s.findIdx? (fun c => c == '(') with
    | some i => i + 1
    | none => 0
  let stop : Nat := match s.reverse.findIdx? (fun c => c == ')') with
    | some j => s.length - 1 - j
    | none => s.length - 1
  (s.take stop).drop start

/-- The body of `_parse_color_to_rgb01` after the `(color or "")` default:
hex `#RRGGBB` (no clamping!), else `rgb(...)`/`rgba(...)` with clamping,
else `None`. -/
def parseColorStr (color : List Char) : Option (Rat × Rat × Rat) :=
  let s := pyStrip color
  if s.isEmpty then none
  else if s.head? = some '#' ∧ s.length = 7 then
    match pyIntHex ((s.drop 1).take 2), pyIntHex ((s.drop 3).take 2),
        pyIntHex ((s.drop 5).take 2) with
    | some r, some g, some b => some ((r : Rat) / 255, (g : Rat) / 255, (b : Rat) / 255)
    | _, _, _ => none
  else if ((s.map Char.toLower).take 3) = ("rgb".data) then
    let parts := (splitOnComma (colorInner s)).map pyStrip
    if parts.length < 3 then none
    else
      match parts with
      | p0 :: p1 :: p2 :: _ =>
        match pyFloatOfStr p0, pyFloatOfStr p1, pyFloatOfStr p2 with
        | some r, some g, some b =>
          some (clamp01q (r / 255), clamp01q (g / 255), clamp01q (b / 255))
        | _, _, _ => none
      | _ => none
  else none

/-- Function `_parse_color_to_rgb01` of `reviews.py`: total on `str | None`. -/
def parseColorToRgb01 (color : Option (List Char)) : Option (Rat × Rat × Rat) :=
  parseColorStr (color.getD [])

/-! ## Claim C10: color parsing is total but not `[0,1]`-bounded -/

theorem pyStrip_length_le (s : List Char) : (pyStrip s).length ≤ s.length := by
  unfold pyStrip
  calc ((s.dropWhile isPySpace).reverse.dropWhile isPySpace).reverse.length
      = ((s.dropWhile isPySpace).reverse.dropWhile isPySpace).length := by
        rw [List.length_reverse]
    _ ≤ (s.dropWhile isPySpace).reverse.length :=
        (List.dropWhile_sublist _).length_le
    _ = (s.dropWhile isPySpace).length := by rw [List.length_reverse]
    _ ≤ s.length := (List.dropWhile_sublist _).length_le

theorem hexVal_lt {c : Char} (h : isHexDigitCh c = true) : hexVal c < 16 := by
  unfold isHexDigitCh at h
  simp only [Bool.or_eq_true, Bool.and_eq_true, decide_eq_true_eq] at h
  unfold hexVal
  split
  · next h1 =>
    simp only [Bool.and_eq_true, decide_eq_true_eq] at h1
    omega
  · next h1 =>
    simp only [Bool.and_eq_true, decide_eq_true_eq] at h1
    split
    · next h2 => omega
    · next h2 => omega

theorem hexDigitsVal_lt (l : List Char) (hl : ∀ c ∈ l, isHexDigitCh c = true) :
    hexDigitsVal l < 16 ^ l.length := by
  unfold hexDigitsVal
  suffices h : ∀ a : Nat, l.foldl (fun a c => 16 * a + hexVal c) a <
      (a + 1) * 16 ^ l.length from by
    have := h 0
    simpa using this
  induction l with
  | nil => intro a; simp
  | cons c t ih =>
    intro a
    have hc : hexVal c < 16 := hexVal_lt (hl c (by simp))
    have ht := ih (fun x hx => hl x (by simp [hx])) (16 * a + hexVal c)
    calc (c :: t).foldl (fun a c => 16 * a + hexVal c) a
        = t.foldl (fun a c => 16 * a + hexVal c) (16 * a + hexVal c) := rfl
      _ < (16 * a + hexVal c + 1) * 16 ^ t.length := ht
      _ ≤ ((a + 1) * 16) * 16 ^ t.length := by
          have : 16 * a + hexVal c + 1 ≤ (a + 1) * 16 := by omega
          exact Nat.mul_le_mul_right _ this
      _ = (a + 1) * 16 ^ (t.length + 1) := by ring
      _ = (a + 1) * 16 ^ (c :: t).length := by rw [List.length_cons]

theorem parseHexDigits_lt {l : List Char} {n : Nat}
    (h : parseHexDigits l = some n) : n < 16 ^ l.length := by
  unfold parseHexDigits at h
  split at h
  · next hcond =>
    simp only [Bool.and_eq_true, Bool.not_eq_eq_eq_not, Bool.not_true] at hcond
    injection h with h
    subst h
    exact hexDigitsVal_lt l (List.all_eq_true.mp hcond.2)
  · exact absurd h (by simp)

theorem parseHexBody_lt {l : List Char} {n : Nat}
    (h : parseHexBody l = some n) : n < 16 ^ l.length := by
  unfold parseHexBody at h
  split at h
  · split at h
    · have := parseHexDigits_lt h
      calc n < 16 ^ _ := this
        _ ≤ 16 ^ (_ + 2) := Nat.pow_le_pow_right (by norm_num) (by omega)
    · exact parseHexDigits_lt h
  · exact parseHexDigits_lt h

theorem pyIntHex_bound {s : List Char} {v : Int} (hlen : s.length ≤ 2)
    (h : pyIntHex s = some v) : -15 ≤ v ∧ v ≤ 255 := by
  unfold pyIntHex at h
  have hst := pyStrip_length_le s
  rcases hp : pyStrip s with _ | ⟨c, r⟩
  · rw [hp] at h; exact absurd h (by simp [pyIntSigned])
  · rw [hp] at h
    simp only [pyIntSigned] at h
    have hlr : r.length ≤ 1 := by
      rw [hp] at hst
      simp at hst
      omega
    by_cases hc : c = '-'
    · rw [if_pos hc] at h
      rcases hb : parseHexBody r with _ | n
      · rw [hb] at h; exact absurd h (by simp)
      · rw [hb] at h
        simp at h
        have hn := parseHexBody_lt hb
        have : n < 16 := by
          calc n < 16 ^ r.length := hn
            _ ≤ 16 ^ 1 := Nat.pow_le_pow_right (by norm_num) hlr
            _ = 16 := by norm_num
        omega
    · rw [if_neg hc] at h
      by_cases hc2 : c = '+'
      · rw [if_pos hc2] at h
        rcases hb : parseHexBody r with _ | n
        · rw [hb] at h; exact absurd h (by simp)
        · rw [hb] at h
          simp at h
          have hn := parseHexBody_lt hb
          have : n < 16 := by
            calc n < 16 ^ r.length := hn
              _ ≤ 16 ^ 1 := Nat.pow_le_pow_right (by norm_num) hlr
              _ = 16 := by norm_num
          omega
      · rw [if_neg hc2] at h
        rcases hb : parseHexBody (c :: r) with _ | n
        · rw [hb] at h; exact absurd h (by simp)
        · rw [hb] at h
          simp at h
          have hn := parseHexBody_lt hb
          have hle : (c :: r).length ≤ 2 := by
            rw [hp] at hst; omega
          have : n < 256 := by
            calc n < 16 ^ (c :: r).length := hn
              _ ≤ 16 ^ 2 := Nat.pow_le_pow_right (by norm_num) hle
              _ = 256 := by norm_num
          omega

theorem clamp01q_bounds (v : Rat) : 0 ≤ clamp01q v ∧ clamp01q v ≤ 1 := by
  unfold clamp01q
  constructor
  · exact le_max_left 0 _
  · exact max_le (by norm_num) (min_le_left 1 v)

theorem int_div255_bounds {v : Int} (h1 : -15 ≤ v) (h2 : v ≤ 255) :
    (-15 : Rat) / 255 ≤ (v : Rat) / 255 ∧ (v : Rat) / 255 ≤ 1 := by
  have hv1 : (-15 : Rat) ≤ (v : Rat) := by exact_mod_cast h1
  have hv2 : (v : Rat) ≤ 255 := by exact_mod_cast h2
  constructor
  · exact div_le_div_of_nonneg_right hv1 (by norm_num) |>.trans_eq rfl
  · rw [div_le_one (by norm_num)]
    exact hv2

/-- Claim C10 counterexample: the hex path of `_parse_color_to_rgb01` accepts a
signed two-character slice (`int("-1", 16) = -1`) and performs no clamping,
so the input `"#-1-1-1"` yields a triple with negative components, refuting
"every component lies within [0.0, 1.0]". -/
theorem parse_color_negative_component :
    parseColorToRgb01 (some ("#-1-1-1".data)) =
      some (((-1 : Int) : Rat) / 255, ((-1 : Int) : Rat) / 255,
        ((-1 : Int) : Rat) / 255) ∧
    ((-1 : Int) : Rat) / 255 < 0 := by
  constructor
  · with_unfolding_all rfl
  · norm_num

/-- Claim C10 amended: `_parse_color_to_rgb01` is total (never raises) on `None`,
the empty string, and arbitrary strings, and returns either `None` or a
triple each of whose components lies within `[-15/255, 1]`; components can
leave `[0, 1]` only through the unclamped hex path, and by no more than a
signed single hex digit (`-15`) scaled by `1/255`. -/
theorem parse_color_total_bounded (c : Option (List Char)) :
    parseColorToRgb01 c = none ∨
    ∃ r g b, parseColorToRgb01 c = some (r, g, b) ∧
      (-15 : Rat) / 255 ≤ r ∧ r ≤ 1 ∧ (-15 : Rat) / 255 ≤ g ∧ g ≤ 1 ∧
      (-15 : Rat) / 255 ≤ b ∧ b ≤ 1 := by
  rcases hv : parseColorToRgb01 c with _ | ⟨r, g, b⟩
  · exact Or.inl rfl
  · right
    refine ⟨r, g, b, rfl, ?_⟩
    simp only [parseColorToRgb01, parseColorStr] at hv
    split at hv
    · exact absurd hv (by simp)
    · split at hv
      · -- hex branch
        split at hv
        · next v1 v2 v3 heq1 heq2 heq3 =>
          injection hv with hv
          injection hv with hr hv
          injection hv with hg hb
          subst hr; subst hg; subst hb
          have hb1 := pyIntHex_bound (List.length_take_le _ _) heq1
          have hb2 := pyIntHex_bound (List.length_take_le _ _) heq2
          have hb3 := pyIntHex_bound (List.length_take_le _ _) heq3
          obtain ⟨l1, u1⟩ := int_div255_bounds hb1.1 hb1.2
          obtain ⟨l2, u2⟩ := int_div255_bounds hb2.1 hb2.2
          obtain ⟨l3, u3⟩ := int_div255_bounds hb3.1 hb3.2
          exact ⟨l1, u1, l2, u2, l3, u3⟩
        · exact absurd hv (by simp)
      · split at hv
        · -- rgb branch
          split at hv
          · exact absurd hv (by simp)
          · split at hv
            · split at hv
              · next x1 x2 x3 rv gv bv heq1 heq2 heq3 =>
                injection hv with hv
                injection hv with hr hv
                injection hv with hg hb
                subst hr; subst hg; subst hb
                have c1 := clamp01q_bounds (rv / 255)
                have c2 := clamp01q_bounds (gv / 255)
                have c3 := clamp01q_bounds (bv / 255)
                refine ⟨le_trans (by norm_num) c1.1, c1.2,
                  le_trans (by norm_num) c2.1, c2.2,
                  le_trans (by norm_num) c3.1, c3.2⟩
              · exact absurd hv (by simp)
            · exact absurd hv (by simp)
        · exact absurd hv (by simp)

/-! ## The byte-range streaming proxy (`proxy_file_for_viewer`) -/

/-- Python `s.split(sep, 1)` when `sep` occurs: the parts before and after
the first occurrence; `none` when `sep` is absent (where the Python
two-variable unpacking raises `ValueError`). -/
def splitFirst (sep : Char) : List Char → Option (List Char × List Char)
  | [] => none
  | c :: t =>
    if c = sep then some ([], t)
    else (splitFirst sep t).map (fun p => (c :: p.1, p.2))

/-- The `try` block parsing a `Range` header against a known total size:
`none` models the `ValueError` path that becomes a 416. -/
def parseRangeSpec (totalSize : Int) (hdr : List Char) : Option (Int × Int) :=
  match splitFirst '=' hdr with
  | none => none
  | some (u, value) =>
    if (pyStrip u).map Char.toLower ≠ "bytes".data then none
    else
      let v := pyStrip value
      if v.contains ',' then none
      else
        match splitFirst '-' v with
        | none => none
        | some (sS, eS) =>
          match (if sS = [] then some 0 else pyIntDec sS),
              (if eS = [] then some (totalSize - 1) else pyIntDec eS) with
          | some s, some e =>
            if s < 0 ∨ e < s ∨ totalSize ≤ e then none else some (s, e)
          | _, _ => none

/-- The response data of the proxy: status, range-related headers, and the
`offset`/`length` arguments of the storage `get_object` call. -/
structure StreamResp where
  status : Nat
  acceptRanges : Bool
  contentRange : Option (List Char)
  contentLength : Option (List Char)
  getOffset : Int
  getLength : Option Int
deriving DecidableEq

/-- What the client observes: a streamed response or an HTTP error status. -/
inductive ProxyOutcome where
  | stream (r : StreamResp)
  | err (status : Nat)
deriving DecidableEq

/-- Full-object response (offset 0, no length bound). -/
def fullResp (sizeKnown : Option Int) : StreamResp :=
  { status := 200
    acceptRanges := match sizeKnown with
      | some n => decide (0 < n)
      | none => false
    contentRange := none
    contentLength := match sizeKnown with
      | some n => if 0 < n then some (intRepr n) else none
      | none => none
    getOffset := 0
    getLength := none }

/-- Partial-content response for a validated range `s..e` of `N` bytes. -/
def partialResp (totalSize s e : Int) : StreamResp :=
  { status := 206
    acceptRanges := true
    contentRange := some (("bytes ".data) ++ intRepr s ++ '-' :: intRepr e
      ++ '/' :: intRepr totalSize)
    contentLength := some (intRepr (e - s + 1))
    getOffset := s
    getLength := some (e - s + 1) }

/-- The `try` body of `proxy_file_for_viewer` after the size has been
resolved: raises a 416-`HTTPException` (modelled as `Except.error 416`)
on an unusable `Range` header when the size is known and positive. -/
def proxyTryBlock (sizeKnown : Option Int) (rangeHeader : Option (List Char)) :
    Except Nat StreamResp :=
  match rangeHeader, sizeKnown with
  | some hdr, some n =>
    if 0 < n then
      match parseRangeSpec n hdr with
      | none => .error 416
      | some (s, e) => .ok (partialResp n s e)
    else .ok (fullResp (some n))
  | _, _ => .ok (fullResp sizeKnown)

/-- Function `proxy_file_for_viewer` as observed by the client: the whole `try`
body sits inside `except Exception as e: raise HTTPException(500, ...)`,
which also catches the 416-`HTTPException` raised for a bad range and
re-raises it as a 500. -/
def proxyFileForViewer (sizeKnown : Option Int)
    (rangeHeader : Option (List Char)) : ProxyOutcome :=
  match proxyTryBlock sizeKnown rangeHeader with
  | .ok r => .stream r
  | .error _ => .err 500

/-! ## Lemmas: evaluating the range parser on `bytes=s-e` headers -/

theorem splitFirst_not_mem {sep : Char} {A : List Char} (h : sep ∉ A) :
    splitFirst sep A = none := by
  induction A with
  | nil => rfl
  | cons c t ih =>
    unfold splitFirst
    rw [if_neg (fun he => h (by rw [← he]; exact List.mem_cons_self c t))]
    rw [ih (fun hm => h (List.mem_cons_of_mem c hm))]
    rfl

theorem splitFirst_append {sep : Char} {A : List Char} (B : List Char)
    (h : sep ∉ A) : splitFirst sep (A ++ sep :: B) = some (A, B) := by
  induction A with
  | nil => simp [splitFirst]
  | cons c t ih =>
    rw [List.cons_append]
    unfold splitFirst
    rw [if_neg (fun he => h (by rw [← he]; exact List.mem_cons_self c t))]
    rw [ih (fun hm => h (List.mem_cons_of_mem c hm))]
    rfl

theorem natRepr_no_space {n : Nat} : ∀ c ∈ natRepr n, isPySpace c = false := by
  intro c hc
  have := mem_natRepr_digit hc
  unfold isPySpace
  simp only [Bool.or_eq_false_iff, decide_eq_false_iff_not]
  omega

theorem dash_not_mem_natRepr {n : Nat} : '-' ∉ natRepr n := by
  intro h
  have := mem_natRepr_digit h
  simp at this

theorem comma_not_mem_natRepr {n : Nat} : ',' ∉ natRepr n := by
  intro h
  have := mem_natRepr_digit h
  simp at this

theorem pyStrip_range_value (s e : Nat) :
    pyStrip (natRepr s ++ '-' :: natRepr e) = natRepr s ++ '-' :: natRepr e := by
  apply pyStrip_eq_self
  intro c hc
  rcases List.mem_append.mp hc with h | h
  · exact natRepr_no_space c h
  · rcases List.mem_cons.mp h with h | h
    · subst h; decide
    · exact natRepr_no_space c h

theorem range_value_no_comma (s e : Nat) :
    (natRepr s ++ '-' :: natRepr e).contains ',' = false := by
  rw [← Bool.not_eq_true]
  intro h
  have hm : ',' ∈ natRepr s ++ '-' :: natRepr e := List.elem_iff.mp h
  rcases List.mem_append.mp hm with h1 | h1
  · exact comma_not_mem_natRepr h1
  · rcases List.mem_cons.mp h1 with h1 | h1
    · exact absurd h1 (by decide)
    · exact comma_not_mem_natRepr h1

theorem pyIntDec_natRepr (n : Nat) : pyIntDec (natRepr n) = some (n : Int) := by
  unfold pyIntDec
  rw [pyStrip_eq_self natRepr_no_space]
  rcases hn : natRepr n with _ | ⟨c, t⟩
  · exact absurd hn (natRepr_ne_nil n)
  · have hc : 48 ≤ c.toNat ∧ c.toNat ≤ 57 :=
      mem_natRepr_digit (by rw [hn]; exact List.mem_cons_self c t)
    have hcm : c ≠ '-' := by
      intro he; subst he; simp at hc
    have hcp : c ≠ '+' := by
      intro he; subst he; simp at hc
    simp only [pyIntSigned, if_neg hcm, if_neg hcp]
    rw [← hn, parseDecDigits_natRepr]
    rfl

theorem intRepr_natCast (n : Nat) : intRepr ((n : Nat) : Int) = natRepr n := by
  unfold intRepr
  rw [if_neg (by omega)]
  norm_num

theorem parseRangeSpec_eval (N s e : Nat) :
    parseRangeSpec (N : Int) (("bytes=".data) ++ natRepr s ++ '-' :: natRepr e) =
      if (e : Int) < (s : Int) ∨ (N : Int) ≤ (e : Int) then none
      else some ((s : Int), (e : Int)) := by
  have hhdr : ("bytes=".data) ++ natRepr s ++ '-' :: natRepr e =
      ("bytes".data) ++ '=' :: (natRepr s ++ '-' :: natRepr e) := rfl
  have hsp1 : splitFirst '=' (("bytes".data) ++ '=' ::
      (natRepr s ++ '-' :: natRepr e)) =
      some (("bytes".data), natRepr s ++ '-' :: natRepr e) :=
    splitFirst_append _ (by decide)
  have hsp2 : splitFirst '-' (natRepr s ++ '-' :: natRepr e) =
      some (natRepr s, natRepr e) :=
    splitFirst_append _ dash_not_mem_natRepr
  unfold parseRangeSpec
  rw [hhdr, hsp1]
  simp only
  rw [if_neg (by decide), pyStrip_range_value, range_value_no_comma]
  simp only [Bool.false_eq_true, if_false]
  rw [hsp2]
  simp only
  rw [if_neg (natRepr_ne_nil s), if_neg (natRepr_ne_nil e),
    pyIntDec_natRepr, pyIntDec_natRepr]
  simp only
  congr 1
  simp only [eq_iff_iff]
  constructor
  · rintro (h | h | h)
    · omega
    · exact Or.inl h
    · exact Or.inr h
  · rintro (h | h)
    · exact Or.inr (Or.inl h)
    · exact Or.inr (Or.inr h)

/-! ## Claim C3 -/

/-- Claim C3: with a known positive size `N` and header `bytes=s-e` for
`0 ≤ s ≤ e < N` the proxy responds 206 with
`Content-Range: bytes s-e/N`, `Content-Length: e-s+1`, and fetches exactly
the span via an offset `s`, length `e-s+1` storage read; with no `Range`
header or unknown size it streams the full object from offset 0 with
status 200; and a range whose end is at or beyond `N` is rejected with an
error status rather than served. -/
theorem proxy_range_contract (N s e : Nat) :
    ((s ≤ e ∧ e < N) →
      proxyFileForViewer (some (N : Int))
          (some (("bytes=".data) ++ natRepr s ++ '-' :: natRepr e)) =
        .stream {
          status := 206
          acceptRanges := true
          contentRange := some (("bytes ".data) ++ natRepr s ++ '-' :: natRepr e
            ++ '/' :: natRepr N)
          contentLength := some (natRepr (e - s + 1))
          getOffset := (s : Int)
          getLength := some ((e : Int) - (s : Int) + 1) }) ∧
    (0 < N →
      proxyFileForViewer (some (N : Int)) none =
        .stream {
          status := 200
          acceptRanges := true
          contentRange := none
          contentLength := some (natRepr N)
          getOffset := 0
          getLength := none }) ∧
    (∀ hdr, proxyFileForViewer none hdr =
      .stream {
        status := 200
        acceptRanges := false
        contentRange := none
        contentLength := none
        getOffset := 0
        getLength := none }) ∧
    ((s ≤ e ∧ N ≤ e ∧ 0 < N) →
      proxyFileForViewer (some (N : Int))
          (some (("bytes=".data) ++ natRepr s ++ '-' :: natRepr e)) = .err 500) := by
  refine ⟨?_, ?_, ?_, ?_⟩
  · rintro ⟨h1, h2⟩
    have hN : (0 : Int) < (N : Int) := by omega
    simp only [proxyFileForViewer, proxyTryBlock]
    rw [if_pos hN, parseRangeSpec_eval, if_neg (by omega)]
    simp only [partialResp]
    have hcl : (e : Int) - (s : Int) + 1 = ((e - s + 1 : Nat) : Int) := by omega
    rw [hcl, intRepr_natCast, intRepr_natCast, intRepr_natCast, intRepr_natCast]
  · intro hN
    have hN' : (0 : Int) < (N : Int) := by omega
    simp only [proxyFileForViewer, proxyTryBlock, fullResp]
    rw [if_pos hN', intRepr_natCast, decide_eq_true hN']
  · intro hdr
    rcases hdr with _ | h <;> rfl
  · rintro ⟨h1, h2, h3⟩
    have hN : (0 : Int) < (N : Int) := by omega
    simp only [proxyFileForViewer, proxyTryBlock]
    rw [if_pos hN, parseRangeSpec_eval, if_pos (by omega)]

/-- Witness for C3 on a 1000-byte object: `bytes=0-99` yields 206 with
`Content-Range: bytes 0-99/1000` and a 100-byte offset read; no header
yields 200; unknown size yields 200; `bytes=900-1200` is rejected. -/
theorem proxy_range_contract_witness :
    (proxyFileForViewer (some ((1000 : Nat) : Int))
        (some (("bytes=".data) ++ natRepr 0 ++ '-' :: natRepr 99)) =
      .stream {
        status := 206
        acceptRanges := true
        contentRange := some (("bytes ".data) ++ natRepr 0 ++ '-' :: natRepr 99
          ++ '/' :: natRepr 1000)
        contentLength := some (natRepr (99 - 0 + 1))
        getOffset := ((0 : Nat) : Int)
        getLength := some ((99 : Int) - ((0 : Nat) : Int) + 1) }) ∧
    (proxyFileForViewer (some ((1000 : Nat) : Int)) none =
      .stream {
        status := 200
        acceptRanges := true
        contentRange := none
        contentLength := some (natRepr 1000)
        getOffset := 0
        getLength := none }) ∧
    (proxyFileForViewer none (some ("bytes=0-99".data)) =
      .stream {
        status := 200
        acceptRanges := false
        contentRange := none
        contentLength := none
        getOffset := 0
        getLength := none }) ∧
    (proxyFileForViewer (some ((1000 : Nat) : Int))
        (some (("bytes=".data) ++ natRepr 900 ++ '-' :: natRepr 1200)) = .err 500) :=
  ⟨(proxy_range_contract 1000 0 99).1 (by omega),
   (proxy_range_contract 1000 0 99).2.1 (by omega),
   (proxy_range_contract 1000 0 99).2.2.1 _,
   (proxy_range_contract 1000 900 1200).2.2.2 (by omega)⟩

/-! ## Claim C4 -/

/-- Claim C4: for a multi-range (or otherwise malformed) `Range` header on an
object of known size, the inner handler raises a 416-`HTTPException`, but
the enclosing `except Exception` of `proxy_file_for_viewer` catches that
very exception and re-raises it as HTTP 500, so the client observes
status 500, not 416. -/
theorem proxy_malformed_range_observed_500 :
    proxyTryBlock (some 1000) (some ("bytes=0-0,5-9".data)) = .error 416 ∧
    proxyFileForViewer (some 1000) (some ("bytes=0-0,5-9".data)) = .err 500 ∧
    (500 : Nat) ≠ 416 := by
  refine ⟨rfl, rfl, by decide⟩

/-! ## JSON values and Python coercions for the baking engine -/

/-- JSON-decoded Python values, as held in annotation payloads. -/
inductive JVal where
  | null
  | bool (b : Bool)
  | num (q : Rat)
  | str (s : List Char)
  | arr (xs : List JVal)
  | obj (fields : List (List Char × JVal))

/-- A decoded JSON object (Python `dict`). -/
abbrev JDict := List (List Char × JVal)

/-- Python `d.get(k)` (first binding wins, `None` when absent). -/
def jget : JDict → List Char → Option JVal
  | [], _ => none
  | (k, v) :: t, key => if k = key then some v else jget t key

/-- Python truthiness of a JSON-decoded value. -/
def truthy : JVal → Bool
  | .null => false
  | .bool b => b
  | .num q => decide (q ≠ 0)
  | .str s => !s.isEmpty
  | .arr xs => !xs.isEmpty
  | .obj fs => !fs.isEmpty

/-- Python `v or d` for an optional value `v` (`None` when a key is absent). -/
def jOr (v : Option JVal) (d : JVal) : JVal :=
  match v with
  | some x => if truthy x then x else d
  | none => d

/-- Truncation toward zero, as Python `int(float)`. -/
def ratTrunc (q : Rat) : Int := Int.div q.num (q.den : Int)

/-- Python `int(v)` on a JSON value; `none` models the raised `TypeError`
or `ValueError`. -/
def pyIntJ : JVal → Option Int
  | .num q => some (ratTrunc q)
  | .bool b => some (if b then 1 else 0)
  | .str s => pyIntDec s
  | _ => none

/-- Python `float(v)` on a JSON value; `none` models the raised error. -/
def pyFloatJ : JVal → Option Rat
  | .num q => some q
  | .bool b => some (if b then 1 else 0)
  | .str s => pyFloatOfStr s
  | _ => none

/-- Python `str(v)`.  `str` never raises; for non-string scalars the exact
rendering is a placeholder that preserves (non-)emptiness, which is all the
bake code inspects (`if not text`). -/
def pyStrJ : JVal → List Char
  | .str s => s
  | .num q => intRepr q.num ++ (if q.den = 1 then [] else '/' :: natRepr q.den)
  | .bool b => if b then "True".data else "False".data
  | .null => "None".data
  | .arr _ => "[list]".data
  | .obj _ => "[dict]".data

/-- Python `isinstance(v, (int, float))` (a Python `bool` is an `int`). -/
def isNumLike : JVal → Bool
  | .num _ => true
  | .bool _ => true
  | _ => false

/-- Python `float(v)` on a value known to be numeric or boolean. -/
def numLikeVal : JVal → Rat
  | .num q => q
  | .bool b => if b then 1 else 0
  | _ => 0

/-- Lift the raising coercions into the bake's error monad. -/
def toE {α : Type} : Option α → Except Unit α
  | some a => .ok a
  | none => .error ()

/-! ## The baking engine (`_build_baked_pdf_bytes`)

The PyMuPDF backend is modelled structurally: a document is its list of
pages, a page is its media-box size plus the list of drawing operations
layered onto it, and the drawing primitives (`draw_polyline`, `draw_rect`,
`insert_textbox`, `insert_text`) succeed and record one operation, as in a
modern PyMuPDF.  Re-serialisation (`doc.save`) is modelled as the identity
on this structure, page count included. -/

/-- One native drawing operation layered onto a page. -/
inductive DrawOp where
  | polyline (pts : List (Rat × Rat)) (color : Rat × Rat × Rat) (width : Rat)
      (strokeOpacity : Option Rat) (overlay : Bool)
  | rectFill (x0 y0 x1 y1 : Rat) (fill : Rat × Rat × Rat) (fillOpacity : Rat)
      (overlay : Bool)
  | textbox (x0 y0 x1 y1 : Rat) (content : List Char) (fontSize : Rat)
      (color : Rat × Rat × Rat)
  | textLine (x y : Rat) (content : List Char) (fontSize : Rat)
      (color : Rat × Rat × Rat)

/-- A page: its size in native units and its (baked) content. -/
structure Page where
  width : Rat
  height : Rat
  ops : List DrawOp

/-- A document as opened by the rendering backend. -/
structure PdfDoc where
  pages : List Page

/-- The resolution `rgb = _parse_color_to_rgb01(data.get("color")) or default`.  A truthy
non-string color raises inside `(color or "").strip()` (uncaught). -/
def colorFrom (data : JDict) (deflt : Rat × Rat × Rat) :
    Except Unit (Rat × Rat × Rat) :=
  match jget data ("color".data) with
  | none => .ok ((parseColorToRgb01 none).getD deflt)
  | some v =>
    if truthy v then
      match v with
      | .str s => .ok ((parseColorToRgb01 (some s)).getD deflt)
      | _ => .error ()
    else .ok ((parseColorToRgb01 (some [])).getD deflt)

/-- The index pairs `(i, i+1)` of `range(0, len-1, 2)`. -/
def toPairs : List JVal → List (JVal × JVal)
  | a :: b :: rest => (a, b) :: toPairs rest
  | _ => []

/-- Points `fitz.Point(float(p[i] or 0.0) * page_w, float(p[i+1] or 0.0) * page_h)`
for every pair; a non-numeric entry raises (uncaught). -/
def ptsFrom (xs : List JVal) (pw ph : Rat) : Except Unit (List (Rat × Rat)) :=
  (toPairs xs).mapM (fun p => do
    let x ← toE (pyFloatJ (jOr (some p.1) (.num 0)))
    let y ← toE (pyFloatJ (jOr (some p.2) (.num 0)))
    pure (x * pw, y * ph))

/-- Legacy pixel width fallback: `max(minW, float(width or deflt) * 72/96)`. -/
def legacyPxWidth (data : JDict) (deflt : Rat) (minW : Rat) : Except Unit Rat := do
  let wpx ← toE (pyFloatJ (jOr (jget data ("width".data)) (.num deflt)))
  pure (max minW (wpx * 72 / 96))

/-- Ink stroke width: `max(0.25, float(widthNorm) * page_w)` when
`widthNorm` is numeric, else the legacy pixel fallback (default 2px). -/
def inkWidthOf (data : JDict) (pw : Rat) : Except Unit Rat :=
  match jget data ("widthNorm".data) with
  | some v =>
    if isNumLike v then .ok (max (1/4 : Rat) (numLikeVal v * pw))
    else legacyPxWidth data 2 (1/4)
  | none => legacyPxWidth data 2 (1/4)

/-- Freehand-highlight stroke width: `max(0.5, float(widthNorm) * page_w)`
when `widthNorm` is numeric, else the legacy pixel fallback (default 12px). -/
def hlStrokeWidthOf (data : JDict) (pw : Rat) : Except Unit Rat :=
  match jget data ("widthNorm".data) with
  | some v =>
    if isNumLike v then .ok (max (1/2 : Rat) (numLikeVal v * pw))
    else legacyPxWidth data 12 (1/2)
  | none => legacyPxWidth data 12 (1/2)

/-- The test `data.get("v") == 2`. -/
def vIsTwo (data : JDict) : Bool :=
  match jget data ("v".data) with
  | some (.num q) => decide (q = 2)
  | _ => false

/-- The `---------- ink ----------` branch. -/
def processInk (data : JDict) (pw ph : Rat) : Except Unit (List DrawOp) :=
  match (if vIsTwo data then jget data ("pointsNorm".data) else none) with
  | some (.arr xs) =>
    if 4 ≤ xs.length then do
      let pts ← ptsFrom xs pw ph
      let rgb ← colorFrom data (0.07, 0.09, 0.12)
      let w ← inkWidthOf data pw
      pure [.polyline pts rgb w none true]
    else .ok []
  | _ => .ok []

/-- The `kind == "stroke"` / `kind == "textbox"` tests on a raw value. -/
def kindIs (want : List Char) : Option JVal → Bool
  | some (.str s) => s = want
  | _ => false

/-- Python `isinstance(v, list)` / `isinstance(v, dict)` on an optional value. -/
def isArrJ : Option JVal → Bool
  | some (.arr _) => true
  | _ => false

def isObjJ : Option JVal → Bool
  | some (.obj _) => true
  | _ => false

def arrOf : JVal → List JVal
  | .arr xs => xs
  | _ => []

def objOf : JVal → JDict
  | .obj fs => fs
  | _ => []

/-- The `rectsNorm` loop: the whole loop body sits in `try/except: pass`,
so rectangles drawn before a bad entry are kept and the first conversion
error silently ends the loop; non-dict entries are skipped. -/
def rectOpsLoop (pw ph : Rat) (rgb : Rat × Rat × Rat) (opacity : Rat) :
    List JVal → List DrawOp
  | [] => []
  | rn :: rest =>
    match rn with
    | .obj fs =>
      match pyFloatJ (jOr (jget fs ("x".data)) (.num 0)),
          pyFloatJ (jOr (jget fs ("y".data)) (.num 0)),
          pyFloatJ (jOr (jget fs ("width".data)) (.num 0)),
          pyFloatJ (jOr (jget fs ("height".data)) (.num 0)) with
      | some x, some y, some w, some h =>
        .rectFill (x * pw) (y * ph) (x * pw + max 0 (w * pw))
            (y * ph + max 0 (h * ph)) rgb opacity false
          :: rectOpsLoop pw ph rgb opacity rest
      | _, _, _, _ => []
    | _ => rectOpsLoop pw ph rgb opacity rest

/-- The `---------- highlight ----------` branch. -/
def processHighlight (data : JDict) (pw ph : Rat) : Except Unit (List DrawOp) := do
  let rgb ← colorFrom data (1.0, 0.94, 0.40)
  let opRaw ← toE (pyFloatJ (jOr (jget data ("opacity".data)) (.num 0.75)))
  let opacity := clamp01q opRaw
  if vIsTwo data && kindIs ("stroke".data) (jget data ("kind".data)) &&
      isArrJ (jget data ("pointsNorm".data)) then
    let xs := arrOf (jOr (jget data ("pointsNorm".data)) (.arr []))
    if 4 ≤ xs.length then do
      let pts ← ptsFrom xs pw ph
      let w ← hlStrokeWidthOf data pw
      pure [.polyline pts rgb w (some opacity) false]
    else pure []
  else if isArrJ (jget data ("rectsNorm".data)) then
    pure (rectOpsLoop pw ph rgb opacity
      (arrOf (jOr (jget data ("rectsNorm".data)) (.arr []))))
  else if isObjJ (jget data ("rectNorm".data)) then do
    let fs := objOf (jOr (jget data ("rectNorm".data)) (.obj []))
    let x ← toE (pyFloatJ (jOr (jget fs ("x".data)) (.num 0)))
    let y ← toE (pyFloatJ (jOr (jget fs ("y".data)) (.num 0)))
    let w ← toE (pyFloatJ (jOr (jget fs ("width".data)) (.num 0)))
    let h ← toE (pyFloatJ (jOr (jget fs ("height".data)) (.num 0)))
    pure [.rectFill (x * pw) (y * ph) (x * pw + max 0 (w * pw))
      (y * ph + max 0 (h * ph)) rgb opacity false]
  else pure []

/-- The text `text = str(data.get("text") or "")`, with the `runs` join fallback. -/
def textOf (data : JDict) : List Char :=
  let t := pyStrJ (jOr (jget data ("text".data)) (.str []))
  if t.isEmpty then
    match jget data ("runs".data) with
    | some (.arr rs) =>
      (rs.filterMap (fun r =>
        match r with
        | .obj fs => some (pyStrJ (jOr (jget fs ("text".data)) (.str [])))
        | _ => none)).join
    | _ => t
  else t

/-- The `---------- freetext ----------` branch. -/
def processFreetext (data : JDict) (pw ph : Rat) : Except Unit (List DrawOp) := do
  let rgb ← colorFrom data (0.07, 0.09, 0.12)
  if vIsTwo data && kindIs ("textbox".data) (jget data ("kind".data)) then do
    let x ← toE (pyFloatJ (jOr (jget data ("xNorm".data)) (.num 0)))
    let y ← toE (pyFloatJ (jOr (jget data ("yNorm".data)) (.num 0)))
    let w ← toE (pyFloatJ (jOr (jget data ("widthNorm".data)) (.num 0.25)))
    let h ← toE (pyFloatJ (jOr (jget data ("heightNorm".data)) (.num 0.12)))
    let fs ← toE (pyFloatJ (jOr (jget data ("fontSizeNorm".data))
      (.num (16 / max 1 ph))))
    let xs := x * pw
    let ys := y * ph
    pure [.textbox xs ys (xs + max 40 (w * pw)) (ys + max 20 (h * ph))
      (textOf data) (max 6 (fs * ph)) rgb]
  else do
    let x ← if vIsTwo data then
        (toE (pyFloatJ (jOr (jget data ("xNorm".data)) (.num 0)))).map (· * pw)
      else toE (pyFloatJ (jOr (jget data ("x".data)) (.num 0)))
    let y ← if vIsTwo data then
        (toE (pyFloatJ (jOr (jget data ("yNorm".data)) (.num 0)))).map (· * ph)
      else toE (pyFloatJ (jOr (jget data ("y".data)) (.num 0)))
    let fs ← if vIsTwo data then
        (toE (pyFloatJ (jOr (jget data ("fontSizeNorm".data))
          (.num (16 / max 1 ph))))).map (· * ph)
      else toE (pyFloatJ (jOr (jget data ("fontSize".data)) (.num 16)))
    pure [.textLine x (y + max 6 fs) (textOf data) (max 6 fs) rgb]

/-- The annotation kinds the bake recognises. -/
inductive AnnKind where
  | ink
  | highlight
  | freetext

/-- One pass of the grouping loop: extract `(page, type, data)` from a raw
annotation record, or skip it (`none`).  Skipping covers: unusable `page`
value, page out of `1..pageCount`, unparseable or non-dict payload, and an
unknown `type`. -/
def annEntry (parseJson : List Char → Option JVal) (pageCount : Nat)
    (ann : JDict) : Option (Int × AnnKind × JDict) := do
  let pageNum ← pyIntJ (jOr (jget ann ("page".data)) (.num 1))
  if pageNum ≤ 0 ∨ (pageCount : Int) < pageNum then none
  else do
    let payload ← match jOr (jget ann ("text".data)) (.str ("\x7b\x7d".data)) with
      | .str s => parseJson s
      | _ => none
    match payload with
    | .obj pfs => do
      let kind ← match jget pfs ("type".data) with
        | some (.str s) =>
          if s = "ink".data then some AnnKind.ink
          else if s = "highlight".data then some AnnKind.highlight
          else if s = "freetext".data then some AnnKind.freetext
          else none
        | _ => none
      let dataFs := match jOr (jget pfs ("data".data)) (.obj []) with
        | .obj fs => fs
        | _ => ([] : JDict)
      some (pageNum, kind, dataFs)
    | _ => none

/-- Dispatch on the annotation kind (the three `if typ ==` branches). -/
def processAnn (k : AnnKind) (data : JDict) (pw ph : Rat) :
    Except Unit (List DrawOp) :=
  match k with
  | .ink => processInk data pw ph
  | .highlight => processHighlight data pw ph
  | .freetext => processFreetext data pw ph

/-- Bake one page: apply its grouped annotations, in stored order, with the
`float(rect.width or 1.0)` fallbacks for degenerate page sizes. -/
def bakePage (entries : List (Int × AnnKind × JDict)) (idx : Nat) (pg : Page) :
    Except Unit Page :=
  let group := entries.filter (fun en => en.1 == ((idx : Int) + 1))
  if group.isEmpty then .ok pg
  else do
    let pw := if pg.width = 0 then 1 else pg.width
    let ph := if pg.height = 0 then 1 else pg.height
    let opss ← group.mapM (fun en => processAnn en.2.1 en.2.2 pw ph)
    pure { pg with ops := pg.ops ++ opss.join }

/-- Function `_build_baked_pdf_bytes`, after the source bytes opened successfully:
group the usable annotations by page (skipping the unusable ones), then
draw page by page in ascending page order.  `Except.error` is an uncaught
exception escaping the function. -/
def buildBakedPdfBytes (parseJson : List Char → Option JVal) (doc : PdfDoc)
    (annotations : List JDict) : Except Unit PdfDoc := do
  let entries := annotations.filterMap (annEntry parseJson doc.pages.length)
  let pages ← doc.pages.enum.mapM (fun p => bakePage entries p.1 p.2)
  pure { pages := pages }

/-! ## Concrete bake inputs used by the claims

`exampleParseJson` is the standard `json.loads` restricted to the three
payload texts used below, mapped to their decoded values. -/

/-- Payload `{"type":"ink","data":{"v":2,"pointsNorm":["a",0,0,0]}}`. -/
def inkBadStr : List Char :=
  "\x7b\x22type\x22:\x22ink\x22,\x22data\x22:\x7b\x22v\x22:2,\x22pointsNorm\x22:[\x22a\x22,0,0,0]\x7d\x7d".data

def inkBadVal : JVal :=
  .obj [(("type".data), .str ("ink".data)),
        (("data".data), .obj [(("v".data), .num 2),
          (("pointsNorm".data), .arr [.str ("a".data), .num 0, .num 0, .num 0])])]

/-- Payload `{"type":"highlight","data":{"opacity":"x","rectNorm":{...in [0,1]...}}}`. -/
def hlBadOpacityStr : List Char :=
  "\x7b\x22type\x22:\x22highlight\x22,\x22data\x22:\x7b\x22opacity\x22:\x22x\x22,\x22rectNorm\x22:\x7b\x22x\x22:0.1,\x22y\x22:0.1,\x22width\x22:0.2,\x22height\x22:0.1\x7d\x7d\x7d".data

def hlBadOpacityVal : JVal :=
  .obj [(("type".data), .str ("highlight".data)),
        (("data".data), .obj [(("opacity".data), .str ("x".data)),
          (("rectNorm".data), .obj [(("x".data), .num 0.1), (("y".data), .num 0.1),
            (("width".data), .num 0.2), (("height".data), .num 0.1)])])]

/-- Payload `{"type":"ink","data":{"v":2,"pointsNorm":[0,0,1,1],"widthNorm":2}}`. -/
def inkWidthStr : List Char :=
  "\x7b\x22type\x22:\x22ink\x22,\x22data\x22:\x7b\x22v\x22:2,\x22pointsNorm\x22:[0,0,1,1],\x22widthNorm\x22:2\x7d\x7d".data

def inkWidthVal : JVal :=
  .obj [(("type".data), .str ("ink".data)),
        (("data".data), .obj [(("v".data), .num 2),
          (("pointsNorm".data), .arr [.num 0, .num 0, .num 1, .num 1]),
          (("widthNorm".data), .num 2)])]

/-- Python `json.loads` on the payload texts of the examples. -/
def exampleParseJson (s : List Char) : Option JVal :=
  if s = inkBadStr then some inkBadVal
  else if s = hlBadOpacityStr then some hlBadOpacityVal
  else if s = inkWidthStr then some inkWidthVal
  else none

/-! ## Claim C1 -/

/-- Claim C1 (code bug): on a successfully opened one-page document, a single ink
annotation whose `pointsNorm` contains the non-numeric entry `"a"` makes
`_build_baked_pdf_bytes` raise (`float("a")` at the uncaught conversion),
instead of being skipped as the best-effort error policy — and the
function's own docstring — demand.  The model evaluates to `Except.error`. -/
theorem bake_fails_on_malformed_ink_geometry :
    buildBakedPdfBytes exampleParseJson ⟨[⟨100, 200, []⟩]⟩
      [[(("page".data), JVal.num 1), (("text".data), JVal.str inkBadStr)]] =
      .error () := by
  with_unfolding_all rfl

/-! ## Claim C5 -/

/-- Claim C5 counterexample: an annotation whose geometry (`rectNorm`) lies
entirely inside `[0,1]` but whose `opacity` is the non-numeric string
`"x"` aborts the whole bake (`float("x")` is uncaught), so on this 5-page
document the bake returns no document at all — refuting the claim that it
returns an N-page document. -/
theorem bake_error_despite_unit_geometry :
    buildBakedPdfBytes exampleParseJson ⟨List.replicate 5 ⟨100, 200, []⟩⟩
      [[(("page".data), JVal.num 1), (("text".data), JVal.str hlBadOpacityStr)]] =
      .error () := by
  with_unfolding_all rfl

theorem mapM_except_length {α β : Type} (f : α → Except Unit β) :
    ∀ (l : List α) (l' : List β), l.mapM f = .ok l' → l'.length = l.length := by
  intro l
  induction l with
  | nil =>
    intro l' h
    rw [List.mapM_nil] at h
    injection h with h
    rw [← h]
    rfl
  | cons a t ih =>
    intro l' h
    rw [List.mapM_cons] at h
    rcases hfa : f a with e | b <;> rw [hfa] at h
    · exact absurd h (by simp [Bind.bind, Except.bind])
    · rcases hmt : t.mapM f with e | bs <;> rw [hmt] at h
      · exact absurd h (by simp [Bind.bind, Except.bind])
      · simp only [Bind.bind, Except.bind, pure, Except.pure] at h
        injection h with h
        rw [← h, List.length_cons, ih bs hmt]
        rfl

/-- Claim C5 amended: whenever `_build_baked_pdf_bytes` returns baked output (for
any annotation list, in particular any whose geometry lies in `[0,1]`), the
baked document has exactly as many pages as the source document — baking
only layers content onto existing pages and never adds or removes any. -/
theorem bake_preserves_page_count (parseJson : List Char → Option JVal)
    (doc : PdfDoc) (anns : List JDict) (res : PdfDoc)
    (h : buildBakedPdfBytes parseJson doc anns = .ok res) :
    res.pages.length = doc.pages.length := by
  simp only [buildBakedPdfBytes] at h
  rcases hm : doc.pages.enum.mapM (fun p =>
      bakePage (anns.filterMap (annEntry parseJson doc.pages.length)) p.1 p.2)
    with e | pages <;> rw [hm] at h
  · exact absurd h (by simp [Bind.bind, Except.bind])
  · simp only [Bind.bind, Except.bind, pure, Except.pure] at h
    injection h with h
    rw [← h]
    have := mapM_except_length _ _ _ hm
    simp only [this]
    exact List.enum_length

/-- Witness for C5's amended statement: a successful concrete bake whose
output page count equals the input page count. -/
theorem bake_preserves_page_count_witness :
    buildBakedPdfBytes exampleParseJson ⟨[⟨100, 200, []⟩]⟩ [] =
      .ok ⟨[⟨100, 200, []⟩]⟩ ∧
    (⟨[⟨100, 200, []⟩]⟩ : PdfDoc).pages.length =
      (⟨[⟨100, 200, []⟩]⟩ : PdfDoc).pages.length :=
  ⟨by with_unfolding_all rfl,
   bake_preserves_page_count exampleParseJson ⟨[⟨100, 200, []⟩]⟩ [] _
     (by with_unfolding_all rfl)⟩

/-! ## Claim C8 -/

/-- Claim C8 counterexample: on a page of width 100 and height 300, an ink
annotation with `widthNorm = 2` is baked with stroke width
`max(0.25, 2 * page_w) = 200` — the code scales by the page *width* —
whereas scaling by the page height, as claimed, would give
`max(0.25, 2 * 300) = 600`. -/
theorem bake_ink_width_uses_page_width :
    buildBakedPdfBytes exampleParseJson ⟨[⟨100, 300, []⟩]⟩
      [[(("page".data), JVal.num 1), (("text".data), JVal.str inkWidthStr)]] =
      .ok ⟨[⟨100, 300,
        [.polyline [(0, 0), (100, 300)] (0.07, 0.09, 0.12) 200 none true]⟩]⟩ ∧
    (200 : Rat) ≠ max (1/4 : Rat) (2 * 300) := by
  constructor
  · with_unfolding_all rfl
  · norm_num

/-- Claim C8 amended: for every ink or freehand-highlight annotation with a
numeric normalized stroke width `wn`, the bake converts it to page units by
scaling by the page *width* (`max(0.25, wn * page_w)` for ink,
`max(0.5, wn * page_w)` for highlight strokes), falling back to a legacy
absolute pixel width times `72/96` when no normalized width is present. -/
theorem stroke_width_conversion (data : JDict) (pw : Rat) :
    (∀ wn : Rat, jget data ("widthNorm".data) = some (.num wn) →
      inkWidthOf data pw = .ok (max (1/4 : Rat) (wn * pw)) ∧
      hlStrokeWidthOf data pw = .ok (max (1/2 : Rat) (wn * pw))) ∧
    (jget data ("widthNorm".data) = none →
      (∀ wpx : Rat, pyFloatJ (jOr (jget data ("width".data)) (.num 2)) = some wpx →
        inkWidthOf data pw = .ok (max (1/4 : Rat) (wpx * 72 / 96))) ∧
      (∀ wpx : Rat, pyFloatJ (jOr (jget data ("width".data)) (.num 12)) = some wpx →
        hlStrokeWidthOf data pw = .ok (max (1/2 : Rat) (wpx * 72 / 96)))) := by
  constructor
  · intro wn hwn
    constructor
    · unfold inkWidthOf
      rw [hwn]
      rfl
    · unfold hlStrokeWidthOf
      rw [hwn]
      rfl
  · intro hnone
    constructor
    · intro wpx hpx
      unfold inkWidthOf legacyPxWidth
      rw [hnone, hpx]
      rfl
    · intro wpx hpx
      unfold hlStrokeWidthOf legacyPxWidth
      rw [hnone, hpx]
      rfl

/-- Witness for C8's amended statement at concrete inputs. -/
theorem stroke_width_conversion_witness :
    (inkWidthOf [(("widthNorm".data), JVal.num 2)] 100 =
      .ok (max (1/4 : Rat) (2 * 100)) ∧
     hlStrokeWidthOf [(("widthNorm".data), JVal.num 2)] 100 =
      .ok (max (1/2 : Rat) (2 * 100))) ∧
    (inkWidthOf [(("width".data), JVal.num 8)] 100 =
      .ok (max (1/4 : Rat) (8 * 72 / 96))) :=
  ⟨(stroke_width_conversion [(("widthNorm".data), JVal.num 2)] 100).1 2 rfl,
   ((stroke_width_conversion [(("width".data), JVal.num 8)] 100).2 rfl).1 8 rfl⟩

/-! ## The annotation store (`save_pdf_annotations` / `get_pdf_annotations`)

The object store is a key-value map holding the JSON document written by
`upload_json` (serialisation to bytes and back is the identity on the
decoded value).  The `PDFAnnotation` record carries exactly the fields the
routes read and write; `usersName` models the author-name lookup joined in
on load. -/

/-- One annotation record of the store API (`PDFAnnotation`). -/
structure PdfAnnRecord where
  id : List Char
  page : Int
  x : Rat
  y : Rat
  text : List Char
  author_id : Option Int
  author_name : Option (List Char)
  created_at : List Char
  updated_at : List Char

/-- The JSON object store, keyed by object key. -/
abbrev Store := List Char → Option JVal

/-- The `ann_dict` written per record by `save_pdf_annotations`: stamps
`updated_at` to now, preserves a truthy incoming `created_at` (else stamps
it), and overwrites `author_id` with the saving user. -/
def annToJ (uid : Int) (now : List Char) (a : PdfAnnRecord) : JVal :=
  .obj [(("id".data), .str a.id),
        (("page".data), .num (a.page : Rat)),
        (("x".data), .num a.x),
        (("y".data), .num a.y),
        (("text".data), .str a.text),
        (("author_id".data), .num (uid : Rat)),
        (("created_at".data), .str (if a.created_at.isEmpty then now else a.created_at)),
        (("updated_at".data), .str now)]

/-- Route handler `save_pdf_annotations`: full replacement of the sidecar object at the
derived per-user annotations key. -/
def savePdfAnns (store : Store) (fileKey : List Char) (uid : Int)
    (now : List Char) (anns : List PdfAnnRecord) : Store :=
  let objectKey := deriveAnnotationsKey fileKey (some uid)
  fun k =>
    if k = objectKey then
      some (.obj [(("annotations".data), .arr (anns.map (annToJ uid now)))])
    else store k

/-- Pydantic `str` field validation. -/
def expectStr : JVal → Except Unit (List Char)
  | .str s => .ok s
  | _ => .error ()

/-- Pydantic `int` field validation (accepts integral JSON numbers). -/
def expectInt : JVal → Except Unit Int
  | .num q => if q.den = 1 then .ok q.num else .error ()
  | _ => .error ()

/-- Pydantic `float` field validation. -/
def expectFloat : JVal → Except Unit Rat
  | .num q => .ok q
  | _ => .error ()

/-- Pydantic `Optional[int]` field validation. -/
def expectOptInt : JVal → Except Unit (Option Int)
  | .null => .ok none
  | .num q => if q.den = 1 then .ok (some q.num) else .error ()
  | _ => .error ()

/-- Rebuild one `PDFAnnotation` from a stored record, with the
`if author_id:` author-name enrichment of `get_pdf_annotations`. -/
def loadOneAnn (usersName : Int → Option (List Char)) (j : JVal) :
    Except Unit PdfAnnRecord :=
  match j with
  | .obj fs => do
    let idv ← expectStr ((jget fs ("id".data)).getD (.str []))
    let pg ← expectInt ((jget fs ("page".data)).getD (.num 1))
    let xv ← expectFloat ((jget fs ("x".data)).getD (.num 0))
    let yv ← expectFloat ((jget fs ("y".data)).getD (.num 0))
    let tx ← expectStr ((jget fs ("text".data)).getD (.str []))
    let aidRaw := (jget fs ("author_id".data)).getD .null
    let aid ← expectOptInt aidRaw
    let aname := if truthy aidRaw then
        match aid with
        | some i => usersName i
        | none => none
      else none
    let cr ← expectStr ((jget fs ("created_at".data)).getD (.str []))
    let up ← expectStr ((jget fs ("updated_at".data)).getD (.str []))
    pure ⟨idv, pg, xv, yv, tx, aid, aname, cr, up⟩
  | _ => .error ()

/-- Route handler `get_pdf_annotations`: empty list when no sidecar exists (or it is
falsy), else decode every stored record. -/
def getPdfAnns (usersName : Int → Option (List Char)) (store : Store)
    (fileKey : List Char) (uid : Int) : Except Unit (List PdfAnnRecord) :=
  let objectKey := deriveAnnotationsKey fileKey (some uid)
  match store objectKey with
  | none => .ok []
  | some v =>
    if truthy v then
      match v with
      | .obj fs =>
        match (jget fs ("annotations".data)).getD (.arr []) with
        | .arr xs => xs.mapM (loadOneAnn usersName)
        | _ => .error ()
      | _ => .error ()
    else .ok []

/-! ## Claim C6 -/

theorem loadOneAnn_annToJ (usersName : Int → Option (List Char)) (uid : Int)
    (now : List Char) (a : PdfAnnRecord) :
    loadOneAnn usersName (annToJ uid now a) =
      .ok { id := a.id, page := a.page, x := a.x, y := a.y, text := a.text
            author_id := some uid
            author_name := if uid = 0 then none else usersName uid
            created_at := if a.created_at.isEmpty then now else a.created_at
            updated_at := now } := by
  by_cases hu : uid = 0 <;>
    simp [loadOneAnn, annToJ, jget, expectStr, expectInt, expectFloat,
      expectOptInt, truthy, Bind.bind, Except.bind, pure, Except.pure, hu,
      Rat.den_intCast, Rat.num_intCast]

/-- Claim C6: saving an annotation list for a `(document, owner)` pair and
immediately loading it back returns, without error, the same records in the
same order — same ids, pages, x/y geometry and text — with `updated_at`
stamped to the save time on every record, `created_at` preserved when the
incoming record carried one (else stamped to the save time), and the
author fields rewritten to the saving owner; the save is a full
replacement: the result is independent of whatever the store previously
held at the derived key. -/
theorem save_then_load_roundtrip (usersName : Int → Option (List Char))
    (store : Store) (fileKey : List Char) (uid : Int) (now : List Char)
    (anns : List PdfAnnRecord) :
    getPdfAnns usersName (savePdfAnns store fileKey uid now anns) fileKey uid =
      .ok (anns.map (fun a =>
        { id := a.id, page := a.page, x := a.x, y := a.y, text := a.text
          author_id := some uid
          author_name := if uid = 0 then none else usersName uid
          created_at := if a.created_at.isEmpty then now else a.created_at
          updated_at := now })) := by
  simp only [getPdfAnns, savePdfAnns, if_pos rfl]
  rcases hanns : anns.map (annToJ uid now) with _ | ⟨j, js⟩
  · have : anns = [] := by
      cases anns with
      | nil => rfl
      | cons x xs => simp at hanns
    subst this
    rfl
  · -- nonempty: truthiness and field lookups reduce, then induct
    simp only [truthy, jget, if_pos rfl, List.isEmpty_cons, Bool.not_false,
      Option.getD_some, if_true]
    rw [← hanns]
    -- mapM over the rendered records, pointwise
    have : ∀ l : List PdfAnnRecord,
        (l.map (annToJ uid now)).mapM (loadOneAnn usersName) =
          .ok (l.map (fun a =>
            { id := a.id, page := a.page, x := a.x, y := a.y, text := a.text
              author_id := some uid
              author_name := if uid = 0 then none else usersName uid
              created_at := if a.created_at.isEmpty then now else a.created_at
              updated_at := now })) := by
      intro l
      induction l with
      | nil => rfl
      | cons a t ih =>
        rw [List.map_cons, List.mapM_cons, loadOneAnn_annToJ]
        simp only [Bind.bind, Except.bind, ih, pure, Except.pure, List.map_cons]
    exact this anns

/-! ## Model sanity checks against concrete Python behaviour -/

/-- The derivation examples of the source docstrings, plus edge cases. -/
theorem modelCheck_derivation_examples :
    deriveBakedKey ("foo/bar/name.pdf".data) none = "foo/bar/name__baked.pdf".data ∧
    deriveBakedKey ("foo/bar/name.pdf".data) (some 5) = "foo/bar/name__baked_u5.pdf".data ∧
    deriveAnnotationsKey ("foo/bar/name.pdf".data) (some 5) = "foo/bar/name__ann_u5.json".data ∧
    deriveBakedKey ("docs/name.txt".data) none = "docs/name.txt__baked.pdf".data ∧
    deriveAnnotationsKey ("docs/name.txt".data) none = "docs/name__ann.json".data ∧
    deriveBakedKey ([]) none = "baked__baked.pdf".data ∧
    deriveBakedKey ("/a.pdf".data) none = "a__baked.pdf".data := by
  refine ⟨by decide, ?_, ?_, by decide, by decide, by decide, by decide⟩ <;>
    with_unfolding_all rfl

/-- Color parsing on representative inputs. -/
theorem modelCheck_color_examples :
    parseColorToRgb01 (some ("#ff0000".data)) = some (1, 0, 0) ∧
    parseColorToRgb01 (some ("rgba(255, 0, 127.5, 0.4)".data)) = some (1, 0, 1/2) ∧
    parseColorToRgb01 (some ("rgb(300,-5,12)".data)) = some (1, 0, 12/255) ∧
    parseColorToRgb01 none = none ∧
    parseColorToRgb01 (some ("#ff00".data)) = none ∧
    parseColorToRgb01 (some ("nonsense".data)) = none := by
  refine ⟨?_, ?_, ?_, ?_, ?_, ?_⟩ <;> with_unfolding_all rfl

/-- Numeric string coercions on representative inputs. -/
theorem modelCheck_numeric_examples :
    pyFloatOfStr ("2.5e1".data) = some 25 ∧
    pyFloatOfStr ("a".data) = none ∧
    pyIntHex ("ff".data) = some 255 ∧
    pyIntHex ("-1".data) = some (-1) ∧
    pyIntDec (" -12 ".data) = some (-12) ∧
    natRepr 99 = ['9', '9'] := by
  refine ⟨?_, ?_, ?_, ?_, ?_, ?_⟩ <;> with_unfolding_all rfl
